import Mathlib

/-! CP Editor: the compile-run-verify pipeline of `src/mainwindow.cc`.

A shallow embedding of the output comparator `MainWindow::isVerdictPass` and of the
verdict bookkeeping around it (`updateVerdict`, `clearTests`, `killProcesses`, `run`,
`onRunFinished`), of the pipeline operations (`compile`, `compileOnly`, `runOnly`,
`compileAndRun`, `detachedExecution`, the compiler slots), of the temporary file
(`saveTemp`, `tmpPath`) and of `applyCompanion`, followed by theorems about them.

The `Core::Compiler` and `Core::Runner` objects live on an explicit heap: `new` puts an
object at the next free address, `delete` removes it.

Texts are `QString`s: finite sequences of UTF-16 code units.  The Qt operations used by
the source (`remove`, `split`, `trimmed`, `isEmpty`, `QChar::isSpace`, `QList::operator[]`)
are rendered by the list functions below, following the Qt documentation.
-/

namespace CPEditor

/-! ## Qt text primitives -/

/-- One UTF-16 code unit (the `ushort` held by a `QChar`).  Nothing below depends on the
bound `< 65536`, so every statement quantified over `QString` covers all real texts. -/
abbrev QChar := Nat

/-- A `QString` is its sequence of code units. -/
abbrev QString := List QChar

/-- Carriage return, the character literal `\r` of the source. -/
def CR : QChar := 13

/-- Line feed, the character literal `\n` of the source. -/
def LF : QChar := 10

/-- Space, the character literal written as a blank between quotes in the source. -/
def SP : QChar := 32

/-- Horizontal tab. -/
def TAB : QChar := 9

/-- Vertical tab. -/
def VT : QChar := 11

/-- Code points of the Unicode categories Zs, Zl and Zp (`QChar::isSpace_helper`). -/
def isSpace_helper (c : QChar) : Bool :=
  c == 0x20 || c == 0xa0 || c == 0x1680 || (0x2000 ≤ c && c ≤ 0x200a) || c == 0x2028 ||
    c == 0x2029 || c == 0x202f || c == 0x205f || c == 0x3000

/-- Qt whitespace test `QChar::isSpace`: space, the controls U+0009..U+000D, U+0085, U+00A0
and the Unicode separators. -/
def isSpace (c : QChar) : Bool :=
  c == 0x20 || (c ≤ 0x0d && c ≥ 0x09) ||
    (c > 127 && (c == 0x85 || c == 0xa0 || isSpace_helper c))

/-- Every occurrence of `ch` is deleted: `QString::remove(QChar)`. -/
def remove (s : QString) (ch : QChar) : QString :=
  s.filter (fun c => c != ch)

/-- The parts of `s` between occurrences of `sep`, empty parts kept: `QString::split(QChar)`
with its default `KeepEmptyParts`.  The empty text yields one empty part. -/
def split (s : QString) (sep : QChar) : List QString :=
  match s with
  | [] => [[]]
  | c :: cs =>
    if c = sep then [] :: split cs sep
    else
      match split cs sep with
      | [] => [[c]]
      | w :: ws => (c :: w) :: ws

/-- Whitespace removed from both ends: `QString::trimmed`. -/
def trimmed (s : QString) : QString :=
  ((s.dropWhile isSpace).reverse.dropWhile isSpace).reverse

/-! ## The comparator `MainWindow::isVerdictPass`

`QList::operator[]` is only defined for an index inside the list, so every access is
rendered by `xs[i]?` and an access outside the list makes the whole computation `none`.
`some false` is an executed `return false`; for the inner loop `some true` means that the
loop ran to its end, for the outer loop that `return true` was reached. -/

/-- The inner `for` loop of `isVerdictPass` over the word index `j`, entered at `j`. -/
def wordLoop (a_words b_words : List QString) (j : Nat) : Option Bool :=
  if j < a_words.length ∨ j < b_words.length then
    if j ≥ a_words.length then
      match b_words[j]? with
      | none => none
      | some w => if (trimmed w).isEmpty then wordLoop a_words b_words (j + 1) else some false
    else if j ≥ b_words.length then
      match a_words[j]? with
      | none => none
      | some w => if (trimmed w).isEmpty then wordLoop a_words b_words (j + 1) else some false
    else
      match a_words[j]?, b_words[j]? with
      | some u, some v => if u ≠ v then some false else wordLoop a_words b_words (j + 1)
      | _, _ => none
  else some true
termination_by max a_words.length b_words.length - j
decreasing_by all_goals simp_wf; all_goals omega

/-- The outer `for` loop of `isVerdictPass` over the line index `i`, entered at `i`. -/
def lineLoop (a_lines b_lines : List QString) (i : Nat) : Option Bool :=
  if i < a_lines.length ∨ i < b_lines.length then
    if i ≥ a_lines.length then
      match b_lines[i]? with
      | none => none
      | some l => if (trimmed l).isEmpty then lineLoop a_lines b_lines (i + 1) else some false
    else if i ≥ b_lines.length then
      match a_lines[i]? with
      | none => none
      | some l => if (trimmed l).isEmpty then lineLoop a_lines b_lines (i + 1) else some false
    else
      match a_lines[i]?, b_lines[i]? with
      | some la, some lb =>
        match wordLoop (split la SP) (split lb SP) 0 with
        | none => none
        | some false => some false
        | some true => lineLoop a_lines b_lines (i + 1)
      | _, _ => none
  else some true
termination_by max a_lines.length b_lines.length - i
decreasing_by all_goals simp_wf; all_goals omega

/-- The comparator `MainWindow::isVerdictPass(output, expected)`. -/
def isVerdictPass (output expected : QString) : Option Bool :=
  let output := remove output CR
  let expected := remove expected CR
  let a_lines := split output LF
  let b_lines := split expected LF
  lineLoop a_lines b_lines 0

/-! ## List-recursive characterisation of the two loops (proof device) -/

/-- Two lists of parts compared position by position with `r`; past the end of the shorter
list the remaining parts of the longer one must be empty after trimming. -/
def restMatch (r : QString → QString → Bool) : List QString → List QString → Bool
  | [], bs => bs.all (fun b => (trimmed b).isEmpty)
  | a :: as, [] => (trimmed a).isEmpty && as.all (fun l => (trimmed l).isEmpty)
  | a :: as, b :: bs => r a b && restMatch r as bs

/-- What the word loop decides about the words not yet visited. -/
def wordsMatch (us vs : List QString) : Bool :=
  restMatch (fun u v => decide (u = v)) us vs

/-- What the line loop decides about the lines not yet visited. -/
def linesMatch (as bs : List QString) : Bool :=
  restMatch (fun a b => wordsMatch (split a SP) (split b SP)) as bs

/-! ## Declarative reference for the comparator (spec 4.1) -/

/-- Reference for one pair of lines already split into words `U` and `V`: at every word
index below the longer length, a word missing on one side is matched by a word that trims
to the empty text on the other side, and two present words are equal. -/
def wordsAgreeSpec (U V : List QString) : Prop :=
  ∀ j, j < max U.length V.length →
    (U.length ≤ j → ∃ v, V[j]? = some v ∧ trimmed v = []) ∧
    (V.length ≤ j → ∃ u, U[j]? = some u ∧ trimmed u = []) ∧
    (j < U.length → j < V.length → ∃ u v, U[j]? = some u ∧ V[j]? = some v ∧ u = v)

/-- Reference for two line lists `A` and `B`: at every line index below the longer length,
a line missing on one side is matched by a line that trims to the empty text on the other
side, and two present lines agree word by word after splitting on single spaces. -/
def linesAgreeSpec (A B : List QString) : Prop :=
  ∀ i, i < max A.length B.length →
    (A.length ≤ i → ∃ b, B[i]? = some b ∧ trimmed b = []) ∧
    (B.length ≤ i → ∃ a, A[i]? = some a ∧ trimmed a = []) ∧
    (i < A.length → i < B.length →
      ∃ a b, A[i]? = some a ∧ B[i]? = some b ∧ wordsAgreeSpec (split a SP) (split b SP))

/-- Reference for the comparator: carriage returns are deleted from both texts, both are
split on line feed, and the line lists agree. -/
def isVerdictPassSpec (output expected : QString) : Prop :=
  linesAgreeSpec (split (remove output CR) LF) (split (remove expected CR) LF)

/-- The text with every line feed turned into carriage return plus line feed. -/
def withCRLF : QString → QString
  | [] => []
  | c :: cs => if c = LF then CR :: LF :: withCRLF cs else c :: withCRLF cs

/-- The list of parts with `t` appended to its last part. -/
def appendLast : List QString → QString → List QString
  | [], t => [t]
  | [l], t => [l ++ t]
  | l :: l2 :: ls, t => l :: appendLast (l2 :: ls) t

/-! ## The window state

The part of `MainWindow` that the pipeline reads and writes.  Widgets are represented by
what they hold: a text edit by the text last stored in it, a verdict label by its text and
style sheet, the message logger by the list of entries it shows.  Objects of the external classes
`Core::Compiler` and `Core::Runner` are represented by the arguments they were created and
started with.  The editor text, the contents of files, the file watcher and emitted signals
are not part of the state.  The file operations are functions of `FileState`; they read the
test slots, which they receive as arguments, and write none of them. -/

/-- The literal `s` of the source as a `QString`. -/
def qs (s : String) : QString := s.data.map Char.toNat

/-- The text of a `QString` as a `std::string`: `QString::toStdString`. -/
def toStdString (s : QString) : String := String.mk (s.map Char.ofNat)

/-- The enumeration `Verdict`. -/
inductive Verdict where
  | ACCEPTED
  | WRONG_ANSWER
  | UNKNOWN
deriving DecidableEq

/-- A verdict label: what `setText` and `setStyleSheet` last stored. -/
structure Label where
  text : String
  styleSheet : String
deriving DecidableEq

/-- Severity of a logger entry: `info`, `warn` or `error` of `MessageLogger`. -/
inductive Level where
  | info
  | warn
  | error
deriving DecidableEq

/-- One entry of the message logger. -/
structure LogEntry where
  level : Level
  head : String
  body : String
deriving DecidableEq

/-- The enumeration `AfterCompile`. -/
inductive AfterCompile where
  | Nothing
  | Run
  | RunDetached
deriving DecidableEq

/-- The enumeration `SaveMode`. -/
inductive SaveMode where
  | IgnoreUntitled
  | SaveUntitled
  | SaveAs
deriving DecidableEq

/-- The fields of `Settings::SettingsData` read by the pipeline. -/
structure SettingsData where
  compileCommandCpp : QString
  compileCommandJava : QString
  runCommandJava : QString
  runCommandPython : QString
  runtimeArgumentsCpp : QString
  runtimeArgumentsJava : QString
  runtimeArgumentsPython : QString
  timeLimit : Int
  isFormatOnSave : Bool
  shouldSaveTests : Bool

/-- A `QTemporaryDir`: whether it was created successfully, and its path. -/
structure TmpDir where
  valid : Bool
  path : QString
deriving DecidableEq

/-- The path of `name` inside the directory: `QTemporaryDir::filePath`; empty for an invalid
directory. -/
def TmpDir.filePath (d : TmpDir) (name : QString) : QString :=
  if d.valid then (if name.isEmpty then d.path else d.path ++ qs "/" ++ name) else []

/-- A `Core::Compiler` object: its address and the arguments of `start`, if it was
called. -/
structure Compiler where
  addr : Nat
  started : Option (QString × QString × QString)
deriving DecidableEq

/-- What a `Core::Runner` was asked to do. -/
inductive RunnerJob where
  | run (filePath language command args input : QString) (timeLimit : Int)
  | runDetached (filePath language command args : QString)
deriving DecidableEq

/-- A `Core::Runner` object: its address, its constructor argument and the job it was
started with. -/
structure Runner where
  addr : Nat
  index : Int
  job : Option RunnerJob
deriving DecidableEq

/-- An object on the heap, as `new` made it: a `Core::Compiler`, or a `Core::Runner` with
its constructor argument. -/
inductive Obj where
  | compiler (addr : Nat)
  | runner (addr : Nat) (index : Int)
deriving DecidableEq

/-- The address of a heap object. -/
def Obj.addr : Obj → Nat
  | .compiler a => a
  | .runner a _ => a

/-- The heap after `delete` of the object at address `a`. -/
def deleteObj (a : Nat) (live : List Obj) : List Obj :=
  live.filter (fun o => o.addr != a)

/-- Outcomes of the interactions with the outside world, in the order in which they happen:
the `n`-th interaction of a window reads its outcome at `n`. -/
structure Env where
  /-- entries that `Formatter::format` adds to the logger, under the head `Formatter` -/
  formatLog : Nat → List (Level × String)
  /-- whether opening a file for writing and writing to it succeeds -/
  writeOk : Nat → Bool
  /-- the directory that `new QTemporaryDir()` yields -/
  newTmpDir : Nat → TmpDir
  /-- the path chosen in `QFileDialog::getSaveFileName`, empty when cancelled -/
  saveFileName : Nat → QString
  /-- the result of `Core::Formatter::check` -/
  formatterCheck : Nat → Bool
  /-- the result of `Core::Compiler::check` on a command -/
  compilerCheck : Nat → QString → Bool
  /-- the result of `QFile::exists` on the file path -/
  fileExists : Nat → Bool
  /-- the result of `QFileInfo::canonicalFilePath` on the file path -/
  canonicalFilePath : Nat → QString
  /-- whether `QFile::open` for reading succeeds -/
  fileOpens : Nat → Bool
  /-- whether the editor text differs from the text it is compared with in `isTextChanged` -/
  textDiffers : Nat → Bool
  /-- the result of `Network::CFTools::check` -/
  cftoolsCheck : Nat → Bool

/-- The members of `MainWindow` that the file operations (`saveFile`, `saveTests`,
`saveTemp`, `tmpPath`, `setLanguage`, `performCoreDiagonistics`) write: settings, language,
file path, temporary directory and logger. -/
structure FileState where
  data : SettingsData
  language : QString
  isLanguageSet : Bool
  filePath : QString
  tmpDir : Option TmpDir
  log : List LogEntry
  /-- number of interactions with the outside world so far -/
  clock : Nat

/-- The state of one `MainWindow`: the members above, the three test slots, the handles of
the live processes (a null handle is `none`), and the heap of the `Core::Compiler` and
`Core::Runner` objects that the window created with `new` and has not deleted. -/
structure MainWindow extends FileState where
  input : Fin 3 → QString
  expected : Fin 3 → QString
  output : Fin 3 → QString
  verdict : Fin 3 → Label
  compiler : Option Compiler
  runner : Fin 3 → Option Runner
  detachedRunner : Option Runner
  afterCompile : AfterCompile
  problemURL : QString
  /-- the submit button: `none` while the pointer is null, else whether it is enabled -/
  submitToCodeforces : Option Bool
  /-- objects created with `new` and not yet deleted -/
  live : List Obj
  /-- number of objects created so far; the next `new` yields this address -/
  allocated : Nat

/-- An entry is appended to the logger: `log.info`, `log.warn`, `log.error`. -/
def FileState.logMessage (s : FileState) (level : Level) (head body : String) : FileState :=
  { s with log := s.log ++ [⟨level, head, body⟩] }

/-- An entry is appended to the logger, seen from the window. -/
def MainWindow.logMessage (s : MainWindow) (level : Level) (head body : String) : MainWindow :=
  { s with toFileState := s.toFileState.logMessage level head body }

/-- The call `log.clear()`. -/
def FileState.logClear (s : FileState) : FileState :=
  { s with log := [] }

/-- One interaction with the outside world has taken place. -/
def FileState.step (s : FileState) : FileState :=
  { s with clock := s.clock + 1 }

/-- The method `MainWindow::isUntitled`. -/
def isUntitled (s : FileState) : Bool :=
  s.filePath.isEmpty

/-- Text and style sheet chosen by the `switch` of `updateVerdict`. -/
def verdictLabel : Verdict → Label
  | .ACCEPTED => ⟨"Verdict : AC", "QLabel \x7b color : rgb(0, 180, 0); \x7d"⟩
  | .WRONG_ANSWER => ⟨"Verdict : WA", "QLabel \x7b color : rgb(255, 0, 0); \x7d"⟩
  | .UNKNOWN => ⟨"Verdict : **", ""⟩

/-- The method `MainWindow::updateVerdict`. -/
def updateVerdict (_verdict : Verdict) (id : Fin 3) (s : MainWindow) : MainWindow :=
  { s with verdict := Function.update s.verdict id (verdictLabel _verdict) }

/-- One round of the loop of `clearTests`. -/
def clearTestsStep (outputOnly : Bool) (s : MainWindow) (i : Fin 3) : MainWindow :=
  let s := if !outputOnly then
      { s with input := Function.update s.input i [],
               expected := Function.update s.expected i [] }
    else s
  let s := { s with output := Function.update s.output i [] }
  updateVerdict .UNKNOWN i s

/-- The method `MainWindow::clearTests`. -/
def clearTests (outputOnly : Bool) (s : MainWindow) : MainWindow :=
  ([0, 1, 2] : List (Fin 3)).foldl (clearTestsStep outputOnly) s

/-- The method `MainWindow::killProcesses`: every live object is deleted and its handle
set to null. -/
def killProcesses (s : MainWindow) : MainWindow :=
  let s := match s.compiler with
    | some c => { s with live := deleteObj c.addr s.live, compiler := none }
    | none => s
  let s := ([0, 1, 2] : List (Fin 3)).foldl
    (fun s t => match s.runner t with
      | some r =>
        { s with live := deleteObj r.addr s.live, runner := Function.update s.runner t none }
      | none => s) s
  match s.detachedRunner with
  | some r => { s with live := deleteObj r.addr s.live, detachedRunner := none }
  | none => s


/-- The suffix of a path as `QFileInfo::suffix` gives it: the characters after the last dot
of the file name, empty when the file name has no dot. -/
def suffix (path : QString) : QString :=
  let name := (split path 47).getLastD []
  let parts := split name 46
  if parts.length ≤ 1 then [] else parts.getLastD []

/-- One round of the loop of `saveTests` for slot `i`. -/
def saveTestsStep (env : Env) (input expected : Fin 3 → QString) (s : FileState)
    (i : Fin 3) : FileState :=
  let s :=
    if !(trimmed (input i)).isEmpty then
      let ok := env.writeOk s.clock
      let s := s.step
      if !ok then
        s.logMessage .error "Tests"
          ("Failed to save Input #" ++ toString (i.val + 1) ++ ". Do I have write permission?")
      else s
    else s
  if !(trimmed (expected i)).isEmpty then
    let ok := env.writeOk s.clock
    let s := s.step
    if !ok then
      s.logMessage .error "Tests"
        ("Failed to save Expected #" ++ toString (i.val + 1) ++ ". Do I have write permission?")
    else s
  else s

/-- The method `MainWindow::saveTests`. -/
def saveTests (env : Env) (input expected : Fin 3 → QString) (s : FileState) : FileState :=
  if isUntitled s || !s.data.shouldSaveTests then s
  else ([0, 1, 2] : List (Fin 3)).foldl (saveTestsStep env input expected) s

/-- The method `MainWindow::performCoreDiagonistics`. -/
def performCoreDiagonistics (env : Env) (s : FileState) : FileState :=
  let s := s.logClear
  let formatResult := env.formatterCheck s.clock
  let s := s.step
  let (compilerResult, s) :=
    if s.language = qs "Cpp" then (env.compilerCheck s.clock s.data.compileCommandCpp, s.step)
    else (true, s)
  let (compilerResult, runResults, s) :=
    if s.language = qs "Java" then
      let c := env.compilerCheck s.clock s.data.compileCommandJava
      let s := s.step
      let r := env.compilerCheck s.clock s.data.runCommandJava
      (c, r, s.step)
    else (compilerResult, true, s)
  let (compilerResult, s) :=
    if s.language = qs "Python" then (env.compilerCheck s.clock s.data.runCommandPython, s.step)
    else (compilerResult, s)
  let s := if !formatResult then
      s.logMessage .warn "Formatter"
        ("Code formatting failed to work. Please check whether the clang-format binary is in " ++
          "the PATH and the style is valid.")
    else s
  let s := if !compilerResult then
      s.logMessage .error "Compiler"
        ("Compiler command for " ++ toStdString s.language ++ " is invalid. Is compiler on PATH?")
    else s
  if !runResults then
    s.logMessage .error "Runner"
      ("Binary or Script won't be executed because its corresponding program or VM could " ++
        "not be loaded")
  else s

/-- The method `MainWindow::setLanguage`. -/
def setLanguage (env : Env) (lang : QString) (s : FileState) : FileState :=
  let s := s.logClear
  let s := { s with language := lang }
  let s :=
    if lang = qs "Python" then s
    else if lang = qs "Java" then s
    else
      let s := { s with language := qs "Cpp" }
      if lang ≠ qs "Cpp" then
        s.logMessage .warn "CP Editor" "Unknown lanague set, fallback to Cpp"
      else s
  let s := performCoreDiagonistics env s
  { s with isLanguageSet := true }

/-- The call `formatter->format(editor, filePath, language, false)`: its entries reach the
logger. -/
def format (env : Env) (s : FileState) : FileState :=
  let entries := (env.formatLog s.clock).map (fun e => (⟨e.1, "Formatter", e.2⟩ : LogEntry))
  { s.step with log := s.log ++ entries }

/-- The method `MainWindow::saveFile`; the boolean is its return value. -/
def saveFile (env : Env) (input expected : Fin 3 → QString) (mode : SaveMode) (head : String)
    (s : FileState) : Bool × FileState :=
  let s := if s.data.isFormatOnSave then format env s else s
  if mode = .SaveAs ∨ (isUntitled s = true ∧ mode = .SaveUntitled) then
    let newFilePath := env.saveFileName s.clock
    let s := s.step
    if newFilePath.isEmpty then (false, s)
    else
      let ok := env.writeOk s.clock
      let s := s.step
      if !ok then
        (false, s.logMessage .error head
          ("Failed to save file to [" ++ toStdString newFilePath ++
            "]. Do I have write permission?"))
      else
        let s := { s with filePath := newFilePath }
        let suffix := suffix s.filePath
        let s :=
          if suffix = qs ".cpp" ∨ suffix = qs ".hpp" ∨ suffix = qs ".h" ∨ suffix = qs ".cc" ∨
              suffix = qs ".cxx" ∨ suffix = qs ".c" then
            setLanguage env (qs "Cpp") s
          else if suffix = qs "java" then setLanguage env (qs "Java") s
          else if suffix = qs "py" ∨ suffix = qs "py3" then setLanguage env (qs "Python") s
          else s
        (true, saveTests env input expected s)
  else if !isUntitled s then
    let ok := env.writeOk s.clock
    let s := s.step
    if !ok then
      (false, s.logMessage .error head
        ("Failed to save file to [" ++ toStdString s.filePath ++
          "]. Do I have write permission?"))
    else (true, saveTests env input expected s)
  else (false, s)

/-- Whether `tmpPath` has a usable temporary directory: `tmpDir` is not null and valid. -/
def hasValidTmpDir (s : FileState) : Bool :=
  match s.tmpDir with
  | some d => d.valid
  | none => false

mutual

/-- The method `MainWindow::saveTemp`; the boolean is its return value.  The result is `none`
when a null `tmpDir` is dereferenced. -/
def saveTemp (env : Env) (input expected : Fin 3 → QString) (head : String) (s : FileState) :
    Option (Bool × FileState) :=
  let r := saveFile env input expected .IgnoreUntitled head s
  if !r.1 then
    let d := env.newTmpDir r.2.clock
    let s1 := { r.2.step with tmpDir := some d }
    if hv : hasValidTmpDir s1 = false then
      some (false, s1.logMessage .error head "Failed to create temporary directory")
    else
      match tmpPath env input expected s1 with
      | none => none
      | some (tmpFile, s2) =>
        let ok := env.writeOk s2.clock
        let s3 := s2.step
        if !ok then
          some (false, s3.logMessage .error head ("Failed to save to " ++ toStdString tmpFile))
        else some (true, s3)
  else some (true, r.2)
termination_by 1
decreasing_by
  simp_wf
  simp at hv
  simp [hv]

/-- The method `MainWindow::tmpPath`; the text is its return value.  The result is `none`
when a null `tmpDir` is dereferenced. -/
def tmpPath (env : Env) (input expected : Fin 3 → QString) (s : FileState) :
    Option (QString × FileState) :=
  if !isUntitled s then some (s.filePath, s)
  else
    let saved : Option (Bool × FileState) :=
      if hv : hasValidTmpDir s = false then saveTemp env input expected "Temp Saver" s
      else some (true, s)
    match saved with
    | none => none
    | some (false, s1) => some ([], s1)
    | some (true, s1) =>
      if !isUntitled s1 then
        -- the name is `getFileName()`, the file name of `filePath`
        match s1.tmpDir with
        | none => none
        | some d => some (d.filePath ((split s1.filePath 47).getLastD []), s1)
      else if s1.language = qs "Cpp" then
        match s1.tmpDir with
        | none => none
        | some d => some (d.filePath (qs "sol.cpp"), s1)
      else if s1.language = qs "Java" then
        match s1.tmpDir with
        | none => none
        | some d => some (d.filePath (qs "sol.java"), s1)
      else if s1.language = qs "Python" then
        match s1.tmpDir with
        | none => none
        | some d => some (d.filePath (qs "sol.py"), s1)
      else some ([], s1.logMessage .error "Temp Saver" "Please set the language")
termination_by if hasValidTmpDir s = false then 2 else 0
decreasing_by
  simp_wf
  simp [hv]

end

/-- One round of the loop of `run` for slot `i`; `isRun` is carried along. -/
def runStep (env : Env) (command args : QString) (acc : Option (Bool × MainWindow))
    (i : Fin 3) : Option (Bool × MainWindow) :=
  match acc with
  | none => none
  | some (isRun, s) =>
    if !(trimmed (s.input i)).isEmpty then
      let a := s.allocated
      let s := { s with runner := Function.update s.runner i (some ⟨a, i.val, none⟩),
                        live := Obj.runner a i.val :: s.live, allocated := a + 1 }
      match tmpPath env s.input s.expected s.toFileState with
      | none => none
      | some (path, f) =>
        let s := { s with toFileState := f }
        let job := RunnerJob.run path s.language command args (s.input i) s.data.timeLimit
        some (true, { s with runner := Function.update s.runner i (some ⟨a, i.val, some job⟩) })
    else some (isRun, s)

/-- The method `MainWindow::run`. -/
def run (env : Env) (s : MainWindow) : Option MainWindow :=
  let s := killProcesses s
  let s := clearTests true s
  let dispatch : Option (QString × QString) :=
    if s.language = qs "Cpp" then some ([], s.data.runtimeArgumentsCpp)
    else if s.language = qs "Java" then some (s.data.runCommandJava, s.data.runtimeArgumentsJava)
    else if s.language = qs "Python" then
      some (s.data.runCommandPython, s.data.runtimeArgumentsPython)
    else none
  match dispatch with
  | none => some (s.logMessage .warn "Runner" "Wrong language, please set the language")
  | some (command, args) =>
    match ([0, 1, 2] : List (Fin 3)).foldl (runStep env command args) (some (false, s)) with
    | none => none
    | some (isRun, s) =>
      if !isRun then
        some (s.logMessage .warn "Runner" "All inputs are empty, nothing to run")
      else some s

/-- The method `MainWindow::getRunnerHead`. -/
def getRunnerHead (index : Int) : String :=
  if index = -1 then "Detached Runner"
  else "Runner[" ++ toString (index + 1) ++ "]"

/-- The slot `MainWindow::onRunFinished`, for a runner of test slot `index`.  The result is
`none` when the comparator makes an access out of range. -/
def onRunFinished (index : Fin 3) (out err : QString) (exitCode timeUsed : Int)
    (s : MainWindow) : Option MainWindow :=
  let head := getRunnerHead index.val
  if exitCode = 0 then
    let s := s.logMessage .info head
      ("Execution for test case #" ++ toString (index.val + 1) ++ " has finished in " ++
        toString timeUsed ++ "ms")
    let s := if !(trimmed err).isEmpty then
        s.logMessage .error (head ++ "/stderr") (toStdString err)
      else s
    let s := { s with output := Function.update s.output index out }
    if !(s.expected index).isEmpty then
      match isVerdictPass out (s.expected index) with
      | none => none
      | some true => some (updateVerdict .ACCEPTED index s)
      | some false => some (updateVerdict .WRONG_ANSWER index s)
    else some s
  else
    let s := s.logMessage .error head
      ("Execution for test case #" ++ toString (index.val + 1) ++
        " has finished with non-zero exitcode " ++ toString exitCode ++ " in " ++
        toString timeUsed ++ "ms")
    let s := if !(trimmed err).isEmpty then
        s.logMessage .error (head ++ "/stderr") (toStdString err)
      else s
    some s

/-- What `killProcesses` leaves of the heap: the objects that none of the five handles
points to. -/
def liveAfterKill (s : MainWindow) : List Obj :=
  ((((s.live.filter (fun o => decide (some o.addr ≠ s.compiler.map Compiler.addr))).filter
    (fun o => decide (some o.addr ≠ (s.runner 0).map Runner.addr))).filter
    (fun o => decide (some o.addr ≠ (s.runner 1).map Runner.addr))).filter
    (fun o => decide (some o.addr ≠ (s.runner 2).map Runner.addr))).filter
    (fun o => decide (some o.addr ≠ s.detachedRunner.map Runner.addr))

/-- Settings of the example window. -/
def sampleData : SettingsData :=
  { compileCommandCpp := qs "g++ -Wall", compileCommandJava := qs "javac",
    runCommandJava := qs "java", runCommandPython := qs "python",
    runtimeArgumentsCpp := [], runtimeArgumentsJava := [], runtimeArgumentsPython := [],
    timeLimit := 5000, isFormatOnSave := false, shouldSaveTests := false }

/-- Example window (the scenario of spec section 8): language Cpp, an untitled file, first
slot with input `3`, line feed, `1 2 3`, line feed and expected output `6`, line feed; the
other slots empty; all verdicts Unknown, no live process. -/
def sampleWindow : MainWindow :=
  { data := sampleData, language := qs "Cpp", isLanguageSet := true, filePath := [],
    tmpDir := none, log := [], clock := 0,
    input := fun i => if i = 0 then [51, 10, 49, 32, 50, 32, 51, 10] else [],
    expected := fun i => if i = 0 then [54, 10] else [],
    output := fun _ => [],
    verdict := fun _ => verdictLabel .UNKNOWN,
    compiler := none, runner := fun _ => none, detachedRunner := none,
    afterCompile := .Nothing, problemURL := [], submitToCodeforces := none,
    live := [], allocated := 0 }

/-- Example outside world: every write succeeds, every temporary directory is valid, the
formatter is silent, the save dialog is cancelled and every check passes. -/
def sampleEnv : Env :=
  { formatLog := fun _ => [], writeOk := fun _ => true,
    newTmpDir := fun _ => ⟨true, qs "/tmp/cpeditor"⟩, saveFileName := fun _ => [],
    formatterCheck := fun _ => true, compilerCheck := fun _ _ => true,
    fileExists := fun _ => false, canonicalFilePath := fun _ => [],
    fileOpens := fun _ => true, textDiffers := fun _ => false,
    cftoolsCheck := fun _ => true }

/-! ## The pipeline operations and the compiler slots -/

/-- The call `log.clear()`, seen from the window. -/
def MainWindow.logClear (s : MainWindow) : MainWindow :=
  { s with toFileState := s.toFileState.logClear }

/-- The language dispatch shared by `run` and the detached branch of
`onCompilationFinished`: run command and runtime arguments, or `none` for a language that
is none of `Cpp`, `Java`, `Python`. -/
def runCommandFor (s : FileState) : Option (QString × QString) :=
  if s.language = qs "Cpp" then some ([], s.data.runtimeArgumentsCpp)
  else if s.language = qs "Java" then some (s.data.runCommandJava, s.data.runtimeArgumentsJava)
  else if s.language = qs "Python" then
    some (s.data.runCommandPython, s.data.runtimeArgumentsPython)
  else none

/-- The method `MainWindow::compile`.  The result is `none` when a null pointer is
dereferenced. -/
def compile (env : Env) (s : MainWindow) : Option MainWindow :=
  let s := killProcesses s
  let a := s.allocated
  let s := { s with compiler := some ⟨a, none⟩, live := Obj.compiler a :: s.live,
                    allocated := a + 1 }
  match saveTemp env s.input s.expected "Compiler" s.toFileState with
  | none => none
  | some (saved, f) =>
    let s := { s with toFileState := f }
    if saved then
      let command : Option QString :=
        if s.language = qs "Cpp" then some s.data.compileCommandCpp
        else if s.language = qs "Java" then some s.data.compileCommandJava
        else none
      match command with
      | none => some s
      | some command =>
        match tmpPath env s.input s.expected s.toFileState with
        | none => none
        | some (path, f) =>
          let s := { s with toFileState := f }
          match s.compiler with
          | none => none
          | some c =>
            some { s with compiler := some { c with started := some (path, command, s.language) } }
    else some s

/-- The method `MainWindow::compileOnly`. -/
def compileOnly (env : Env) (s : MainWindow) : Option MainWindow :=
  let s := { s with afterCompile := .Nothing }
  let s := s.logClear
  compile env s

/-- The method `MainWindow::runOnly`. -/
def runOnly (env : Env) (s : MainWindow) : Option MainWindow :=
  let s := s.logClear
  run env s

/-- The method `MainWindow::compileAndRun`. -/
def compileAndRun (env : Env) (s : MainWindow) : Option MainWindow :=
  let s := { s with afterCompile := .Run }
  let s := s.logClear
  compile env s

/-- The method `MainWindow::detachedExecution`. -/
def detachedExecution (env : Env) (s : MainWindow) : Option MainWindow :=
  let s := { s with afterCompile := .RunDetached }
  let s := s.logClear
  compile env s

/-- The slot `MainWindow::onCompilationStarted`. -/
def onCompilationStarted (s : MainWindow) : MainWindow :=
  s.logMessage .info "Compiler" "Compilation has started"

/-- The slot `MainWindow::onCompilationFinished`.  The result is `none` when a null pointer
is dereferenced. -/
def onCompilationFinished (env : Env) (warning : QString) (s : MainWindow) :
    Option MainWindow :=
  let s := s.logMessage .info "Compiler" "Compilation has finished"
  let s := if !(trimmed warning).isEmpty then
      s.logMessage .warn "Compile Warnings" (toStdString warning)
    else s
  if s.afterCompile = .Run then
    match run env s with
    | none => none
    | some s => some { s with afterCompile := .Nothing }
  else if s.afterCompile = .RunDetached then
    let s := killProcesses s
    match runCommandFor s.toFileState with
    | none => some (s.logMessage .warn "Runner" "Wrong language, please set the language")
    | some (command, args) =>
      let a := s.allocated
      let s := { s with detachedRunner := some ⟨a, -1, none⟩,
                        live := Obj.runner a (-1) :: s.live, allocated := a + 1 }
      match tmpPath env s.input s.expected s.toFileState with
      | none => none
      | some (path, f) =>
        let s := { s with toFileState := f }
        match s.detachedRunner with
        | none => none
        | some r =>
          some { s with
            detachedRunner :=
              some { r with job := some (.runDetached path s.language command args) },
            afterCompile := .Nothing }
  else some { s with afterCompile := .Nothing }

/-- The slot `MainWindow::onCompilationErrorOccured`. -/
def onCompilationErrorOccured (error : QString) (s : MainWindow) : MainWindow :=
  let s := s.logMessage .error "Complier" "Error occured while compiling"
  if !(trimmed error).isEmpty then
    s.logMessage .error "Compile Errors" (toStdString error)
  else s

/-- The destructor of `MainWindow`, as far as `Core::Compiler` and `Core::Runner` objects
are concerned: it calls `killProcesses`; what it deletes afterwards holds none of them. -/
def destructor (s : MainWindow) : MainWindow :=
  killProcesses s

/-- A pipeline operation or an event delivered to the window. -/
inductive Op where
  | compileOnly
  | runOnly
  | compileAndRun
  | detachedExecution
  | compilationFinished (warning : QString)
  | compilationError (error : QString)
  | teardown
deriving DecidableEq

/-- The window after one operation or event. -/
def step (env : Env) (op : Op) (s : MainWindow) : Option MainWindow :=
  match op with
  | .compileOnly => compileOnly env s
  | .runOnly => runOnly env s
  | .compileAndRun => compileAndRun env s
  | .detachedExecution => detachedExecution env s
  | .compilationFinished warning => onCompilationFinished env warning s
  | .compilationError error => some (onCompilationErrorOccured error s)
  | .teardown => some (destructor s)

/-- The window after a finite sequence of operations and events. -/
def runOps (env : Env) : List Op → MainWindow → Option MainWindow
  | [], s => some s
  | op :: ops, s =>
    match step env op s with
    | none => none
    | some s' => runOps env ops s'

/-- The heap object behind a compiler handle. -/
def Compiler.obj (c : Compiler) : Obj := .compiler c.addr

/-- The heap object behind a runner handle. -/
def Runner.obj (r : Runner) : Obj := .runner r.addr r.index

/-- The objects that the five handles `compiler`, `runner[0..2]`, `detachedRunner` point
to, one entry for each handle that is not null. -/
def handleObjs (s : MainWindow) : List Obj :=
  (s.compiler.map Compiler.obj).toList ++ ((s.runner 0).map Runner.obj).toList ++
    ((s.runner 1).map Runner.obj).toList ++ ((s.runner 2).map Runner.obj).toList ++
    (s.detachedRunner.map Runner.obj).toList

/-- The number of handles that point to the object at address `a`. -/
def refCount (s : MainWindow) (a : Nat) : Nat :=
  ((handleObjs s).map Obj.addr).count a

/-- Whether a heap object is a `Core::Compiler`. -/
def Obj.isCompiler : Obj → Bool
  | .compiler _ => true
  | .runner _ _ => false

/-- Whether a heap object is the runner of a test slot (constructor argument not -1). -/
def Obj.isTestRunner : Obj → Bool
  | .compiler _ => false
  | .runner _ i => i != -1

/-- Whether a heap object is a detached runner (constructor argument -1). -/
def Obj.isDetachedRunner : Obj → Bool
  | .compiler _ => false
  | .runner _ i => i == -1

/-- The ownership invariant of the pipeline: the heap holds exactly the objects the five
handles point to, heap objects have distinct addresses below the allocation counter, the
runner of slot `i` was constructed with `i` and the detached runner with -1. -/
def HandlesOwnLive (s : MainWindow) : Prop :=
  s.live.Perm (handleObjs s) ∧ (s.live.map Obj.addr).Nodup ∧
    (∀ o ∈ s.live, o.addr < s.allocated) ∧
    (∀ i r, s.runner i = some r → r.index = i.val) ∧
    (∀ r, s.detachedRunner = some r → r.index = -1)

/-- Proof device: `s'` is `s` with the same language, file path and settings, and a logger
that gained entries whose heads are all in `heads`. -/
def FileFrame (heads : List String) (s s' : FileState) : Prop :=
  s'.language = s.language ∧ s'.filePath = s.filePath ∧ s'.data = s.data ∧
    ∃ added : List LogEntry, s'.log = s.log ++ added ∧ ∀ x ∈ added, x.head ∈ heads

/-- The body of `saveTemp` with its call of `tmpPath` handed in as `callTmpPath`. -/
def saveTempBody (callTmpPath : FileState → Option (QString × FileState)) (env : Env)
    (input expected : Fin 3 → QString) (head : String) (s : FileState) :
    Option (Bool × FileState) :=
  let r := saveFile env input expected .IgnoreUntitled head s
  if !r.1 then
    let d := env.newTmpDir r.2.clock
    let s1 := { r.2.step with tmpDir := some d }
    if hasValidTmpDir s1 = false then
      some (false, s1.logMessage .error head "Failed to create temporary directory")
    else
      match callTmpPath s1 with
      | none => none
      | some (tmpFile, s2) =>
        let ok := env.writeOk s2.clock
        let s3 := s2.step
        if !ok then
          some (false, s3.logMessage .error head ("Failed to save to " ++ toStdString tmpFile))
        else some (true, s3)
  else some (true, r.2)

/-- The body of `tmpPath` with its call of `saveTemp` handed in as `callSaveTemp`. -/
def tmpPathBody (callSaveTemp : String → FileState → Option (Bool × FileState))
    (s : FileState) : Option (QString × FileState) :=
  if !isUntitled s then some (s.filePath, s)
  else
    let saved : Option (Bool × FileState) :=
      if hasValidTmpDir s = false then callSaveTemp "Temp Saver" s
      else some (true, s)
    match saved with
    | none => none
    | some (false, s1) => some ([], s1)
    | some (true, s1) =>
      if !isUntitled s1 then
        match s1.tmpDir with
        | none => none
        | some d => some (d.filePath ((split s1.filePath 47).getLastD []), s1)
      else if s1.language = qs "Cpp" then
        match s1.tmpDir with
        | none => none
        | some d => some (d.filePath (qs "sol.cpp"), s1)
      else if s1.language = qs "Java" then
        match s1.tmpDir with
        | none => none
        | some d => some (d.filePath (qs "sol.java"), s1)
      else if s1.language = qs "Python" then
        match s1.tmpDir with
        | none => none
        | some d => some (d.filePath (qs "sol.py"), s1)
      else some ([], s1.logMessage .error "Temp Saver" "Please set the language")

/-- A call that is never allowed to happen: it yields no result. -/
def noCall : String → FileState → Option (Bool × FileState) :=
  fun _ _ => none

/-- Example window with the language Python: the example window otherwise. -/
def pythonWindow : MainWindow :=
  { sampleWindow with language := qs "Python" }

/-- Example window with a language the pipeline does not know, waiting for the detached
run after a compilation. -/
def kotlinWindow : MainWindow :=
  { sampleWindow with language := qs "Kotlin", afterCompile := .RunDetached }

/-- Example sequence of operations and events: a compile-and-run whose compilation
finishes, a detached execution whose compilation fails, a plain run, and the teardown of
the window. -/
def sampleOps : List Op :=
  [.compileAndRun, .compilationFinished [], .detachedExecution,
   .compilationError (qs "error: expected expression"), .runOnly, .teardown]

/-! ## The companion payload: `applyCompanion` -/

/-- One test case of a companion payload: the members `input` and `output` that
`applyCompanion` reads. -/
structure TestCase where
  input : QString
  output : QString
deriving DecidableEq

/-- The members of `Network::CompanionData` that `applyCompanion` reads to fill the
slots. -/
structure CompanionData where
  url : QString
  testcases : List TestCase

/-- The method `QString::contains` for a text, case sensitive. -/
def contains (s sub : QString) : Bool :=
  decide (sub <:+: s)

/-- Modelled from the spec: the default value of the parameter `outputOnly` of `clearTests`.
It is declared in the header of `MainWindow`, which is not among the sources; the spec says
of the payload that "prior tests are cleared first", so the call `clearTests()` clears
inputs and expected outputs too. -/
def clearTestsDefault : Bool := false

/-- The method `MainWindow::isTextChanged`.  The editor text is not part of the window
state: whether it differs from the text it is compared with (the template, the file, or
the empty text when the template cannot be opened) is an outcome of the outside world. -/
def isTextChanged (env : Env) (s : FileState) : Bool × FileState :=
  let found := env.fileExists s.clock
  let s := s.step
  let s := if found then { s.step with filePath := env.canonicalFilePath s.clock } else s
  if s.language = qs "Cpp" ∨ s.language = qs "Java" ∨ s.language = qs "Python" then
    let opened := env.fileOpens s.clock
    let s := s.step
    if isUntitled s then (env.textDiffers s.clock, s.step)
    else if opened then (env.textDiffers s.clock, s.step)
    else (true, s)
  else (false, s)

/-- The method `MainWindow::setCFToolsUI`.  The result is `none` when the null button is
dereferenced. -/
def setCFToolsUI (env : Env) (s : MainWindow) : Option MainWindow :=
  let s := if s.submitToCodeforces = none then { s with submitToCodeforces := some true }
    else s
  let ok := env.cftoolsCheck s.clock
  let s := { s with toFileState := s.toFileState.step }
  if !ok then
    match s.submitToCodeforces with
    | none => none
    | some _ =>
      some (({ s with submitToCodeforces := some false } : MainWindow).logMessage .error
        "CFTools"
        ("You will not be able to submit code to Codeforces because CFTools is not " ++
          "installed or is not on SYSTEM PATH"))
  else some s

/-- The loop of `applyCompanion` from index `i` on.  The result is `none` when
`testcases[i]` is out of range. -/
def applyCompanionLoop (testcases : List TestCase) (i : Nat) (s : MainWindow) :
    Option MainWindow :=
  if h : i < testcases.length ∧ i < 3 then
    match testcases[i]? with
    | none => none
    | some t =>
      applyCompanionLoop testcases (i + 1)
        { s with input := Function.update s.input ⟨i, h.2⟩ t.input,
                 expected := Function.update s.expected ⟨i, h.2⟩ t.output }
  else some s
termination_by 3 - i
decreasing_by omega

/-- The method `MainWindow::applyCompanion`.  The editor text, to which the first branch
prepends the description of the problem, is not part of the window state; of that branch
the evaluation of `isTextChanged`, which `&&` reaches for an untitled file only, remains.
The final `onTextChangedTriggered` only emits a signal.  The result is `none` when an
index is out of range or a null pointer is dereferenced. -/
def applyCompanion (env : Env) (data : CompanionData) (s : MainWindow) : Option MainWindow :=
  let s := if isUntitled s.toFileState then
      { s with toFileState := (isTextChanged env s.toFileState).2 }
    else s
  let s := clearTests clearTestsDefault s
  let s := if data.testcases.length > 3 then
      s.logMessage .warn "CP Editor"
        "More than 3 testcase were produced. Only First 3 will be used"
    else s
  match applyCompanionLoop data.testcases 0 s with
  | none => none
  | some s =>
    let s := { s with problemURL := data.url }
    if contains s.problemURL (qs "codeforces.com") then setCFToolsUI env s
    else some s

/-- Example payload: four test cases of a Codeforces problem. -/
def sampleCompanion : CompanionData :=
  { url := qs "https://codeforces.com/problemset/problem/4/A",
    testcases := [⟨qs "8", qs "YES"⟩, ⟨qs "3", qs "NO"⟩, ⟨qs "2", qs "NO"⟩, ⟨qs "10", qs "YES"⟩] }

/-! ## Auxiliary lemmas: what the loops compute -/

/-- A text trims to the empty text exactly when all its characters are whitespace. -/
theorem trimmed_isEmpty (w : QString) : (trimmed w).isEmpty = w.all isSpace := by
  unfold trimmed
  rw [Bool.eq_iff_iff]
  simp only [List.isEmpty_iff, List.reverse_eq_nil_iff, List.dropWhile_eq_nil_iff,
    List.mem_reverse, List.all_eq_true]
  constructor
  · intro h x hx
    by_cases hd : List.dropWhile isSpace w = []
    · exact (List.dropWhile_eq_nil_iff.mp hd) x hx
    · have h1 := List.head_dropWhile_not isSpace w hd
      have h2 := h _ (List.head_mem hd)
      simp [h2] at h1
  · intro h x hx
    exact h x ((List.dropWhile_sublist isSpace).subset hx)

/-- The word loop entered at `j` returns, and decides `wordsMatch` on the remaining words. -/
theorem wordLoop_eq (a b : List QString) (j : Nat) :
    wordLoop a b j = some (wordsMatch (a.drop j) (b.drop j)) := by
  generalize hn : max a.length b.length - j = n
  induction n using Nat.strong_induction_on generalizing j with
  | _ n ih =>
    rw [wordLoop]
    by_cases hlt : j < a.length ∨ j < b.length
    · rw [if_pos hlt]
      have hrec : wordLoop a b (j + 1) = some (wordsMatch (a.drop (j + 1)) (b.drop (j + 1))) :=
        ih (max a.length b.length - (j + 1)) (by omega) (j + 1) rfl
      by_cases ha : j ≥ a.length
      · have hb : j < b.length := by omega
        rw [if_pos ha, List.getElem?_eq_getElem hb, hrec]
        rw [List.drop_eq_nil_of_le ha, List.drop_eq_nil_of_le (by omega : a.length ≤ j + 1),
          List.drop_eq_getElem_cons hb]
        simp only [wordsMatch, restMatch, List.all_cons]
        cases (trimmed b[j]).isEmpty <;> simp
      · rw [if_neg ha]
        have ha2 : j < a.length := by omega
        by_cases hb : j ≥ b.length
        · rw [if_pos hb, List.getElem?_eq_getElem ha2, hrec]
          rw [List.drop_eq_nil_of_le hb, List.drop_eq_nil_of_le (by omega : b.length ≤ j + 1),
            List.drop_eq_getElem_cons ha2]
          cases hd : List.drop (j + 1) a <;> simp only [wordsMatch, restMatch, List.all_cons, List.all_nil]
          all_goals cases (trimmed a[j]).isEmpty <;> simp
        · rw [if_neg hb]
          have hb2 : j < b.length := by omega
          rw [List.getElem?_eq_getElem ha2, List.getElem?_eq_getElem hb2, hrec]
          rw [List.drop_eq_getElem_cons ha2, List.drop_eq_getElem_cons hb2]
          simp only [wordsMatch, restMatch]
          by_cases huv : a[j] = b[j] <;> simp [huv]
    · rw [if_neg hlt]
      rw [List.drop_eq_nil_of_le (by omega), List.drop_eq_nil_of_le (by omega)]
      simp [wordsMatch, restMatch]

/-- The line loop entered at `i` returns, and decides `linesMatch` on the remaining lines. -/
theorem lineLoop_eq (a b : List QString) (i : Nat) :
    lineLoop a b i = some (linesMatch (a.drop i) (b.drop i)) := by
  generalize hn : max a.length b.length - i = n
  induction n using Nat.strong_induction_on generalizing i with
  | _ n ih =>
    rw [lineLoop]
    by_cases hlt : i < a.length ∨ i < b.length
    · rw [if_pos hlt]
      have hrec : lineLoop a b (i + 1) = some (linesMatch (a.drop (i + 1)) (b.drop (i + 1))) :=
        ih (max a.length b.length - (i + 1)) (by omega) (i + 1) rfl
      by_cases ha : i ≥ a.length
      · have hb : i < b.length := by omega
        rw [if_pos ha, List.getElem?_eq_getElem hb, hrec]
        rw [List.drop_eq_nil_of_le ha, List.drop_eq_nil_of_le (by omega : a.length ≤ i + 1),
          List.drop_eq_getElem_cons hb]
        simp only [linesMatch, restMatch, List.all_cons]
        cases (trimmed b[i]).isEmpty <;> simp
      · rw [if_neg ha]
        have ha2 : i < a.length := by omega
        by_cases hb : i ≥ b.length
        · rw [if_pos hb, List.getElem?_eq_getElem ha2, hrec]
          rw [List.drop_eq_nil_of_le hb, List.drop_eq_nil_of_le (by omega : b.length ≤ i + 1),
            List.drop_eq_getElem_cons ha2]
          cases hd : List.drop (i + 1) a <;> simp only [linesMatch, restMatch, List.all_cons, List.all_nil]
          all_goals cases (trimmed a[i]).isEmpty <;> simp
        · rw [if_neg hb]
          have hb2 : i < b.length := by omega
          rw [List.getElem?_eq_getElem ha2, List.getElem?_eq_getElem hb2, hrec]
          simp only [wordLoop_eq]
          rw [List.drop_eq_getElem_cons ha2, List.drop_eq_getElem_cons hb2]
          simp only [linesMatch, restMatch, List.drop_zero]
          cases wordsMatch (split a[i] SP) (split b[i] SP) <;> simp
    · rw [if_neg hlt]
      rw [List.drop_eq_nil_of_le (by omega), List.drop_eq_nil_of_le (by omega)]
      simp [linesMatch, restMatch]

/-- The comparator returns `linesMatch` of the two line lists. -/
theorem isVerdictPass_eq (output expected : QString) :
    isVerdictPass output expected =
      some (linesMatch (split (remove output CR) LF) (split (remove expected CR) LF)) := by
  simp only [isVerdictPass, lineLoop_eq, List.drop_zero]

/-- All parts trim to the empty text, stated by index. -/
theorem all_blank_iff (B : List QString) :
    B.all (fun b => (trimmed b).isEmpty) = true ↔
      ∀ i, i < B.length → ∃ b, B[i]? = some b ∧ trimmed b = [] := by
  simp only [List.all_eq_true, List.isEmpty_iff]
  constructor
  · intro h i hi
    exact ⟨B[i], List.getElem?_eq_getElem hi, h _ (List.getElem_mem hi)⟩
  · intro h b hb
    obtain ⟨i, hi, rfl⟩ := List.getElem_of_mem hb
    obtain ⟨b, hb1, hb2⟩ := h i hi
    rw [List.getElem?_eq_getElem hi] at hb1
    cases hb1
    exact hb2

/-- The list recursion `restMatch` stated by index, as the reference does. -/
theorem restMatch_iff (r : QString → QString → Bool) (R : QString → QString → Prop)
    (hr : ∀ a b, r a b = true ↔ R a b) (A B : List QString) :
    restMatch r A B = true ↔
      ∀ i, i < max A.length B.length →
        (A.length ≤ i → ∃ b, B[i]? = some b ∧ trimmed b = []) ∧
        (B.length ≤ i → ∃ a, A[i]? = some a ∧ trimmed a = []) ∧
        (i < A.length → i < B.length → ∃ a b, A[i]? = some a ∧ B[i]? = some b ∧ R a b) := by
  induction A generalizing B with
  | nil =>
    rw [restMatch, all_blank_iff]
    constructor
    · intro h i hi
      refine ⟨fun _ => h i (by simpa using hi), fun h2 => ?_, fun h2 => ?_⟩
      · simp at hi; omega
      · simp at h2
    · intro h i hi
      exact (h i (by simpa using hi)).1 (by simp)
  | cons a as ih =>
    cases B with
    | nil =>
      rw [restMatch]
      have := all_blank_iff (a :: as)
      simp only [List.all_cons] at this
      rw [this]
      constructor
      · intro h i hi
        refine ⟨fun h2 => ?_, fun _ => h i (by simpa using hi), fun _ h2 => ?_⟩
        · simp at hi; simp at h2; omega
        · simp at h2
      · intro h i hi
        exact (h i (by simpa using hi)).2.1 (by simp)
    | cons b bs =>
      rw [restMatch, Bool.and_eq_true, hr, ih]
      constructor
      · rintro ⟨h0, h⟩ i hi
        cases i with
        | zero =>
          refine ⟨fun h2 => ?_, fun h2 => ?_, fun _ _ => ⟨a, b, by simp, by simp, h0⟩⟩
          · simp at h2
          · simp at h2
        | succ k =>
          have hk := h k (by simp at hi; omega)
          simpa using hk
      · intro h
        refine ⟨?_, fun k hk => ?_⟩
        · obtain ⟨a1, b1, ha, hb, hR⟩ := (h 0 (by simp)).2.2 (by simp) (by simp)
          simp at ha hb
          subst ha; subst hb
          exact hR
        · have := h (k + 1) (by simp; omega)
          simpa using this

/-- The word recursion and the word reference agree. -/
theorem wordsMatch_iff_spec (U V : List QString) :
    wordsMatch U V = true ↔ wordsAgreeSpec U V :=
  restMatch_iff _ (fun u v => u = v) (fun _ _ => decide_eq_true_iff) U V

/-- The line recursion and the line reference agree. -/
theorem linesMatch_iff_spec (A B : List QString) :
    linesMatch A B = true ↔ linesAgreeSpec A B :=
  restMatch_iff _ (fun a b => wordsAgreeSpec (split a SP) (split b SP))
    (fun a b => wordsMatch_iff_spec (split a SP) (split b SP)) A B

/-- Deleting a character distributes over concatenation. -/
theorem remove_append (s t : QString) (c : QChar) :
    remove (s ++ t) c = remove s c ++ remove t c := by
  simp [remove]

/-- Splitting always yields at least one part. -/
theorem split_ne_nil (s : QString) (sep : QChar) : split s sep ≠ [] := by
  cases s with
  | nil => simp [split]
  | cons c cs =>
    simp only [split]
    split_ifs
    · simp
    · cases split cs sep <;> simp

/-- A separator at the end opens one more, empty, part. -/
theorem split_append_sep (s : QString) (sep : QChar) :
    split (s ++ [sep]) sep = split s sep ++ [[]] := by
  induction s with
  | nil => simp [split]
  | cons c cs ih =>
    simp only [List.cons_append, split, List.append_eq]
    rw [ih]
    split_ifs
    · simp
    · cases h : split cs sep with
      | nil => exact absurd h (split_ne_nil cs sep)
      | cons w ws => simp

/-- A run of `k` separators at the end opens `k` empty parts. -/
theorem split_append_replicate (s : QString) (sep : QChar) (k : Nat) :
    split (s ++ List.replicate k sep) sep = split s sep ++ List.replicate k [] := by
  induction k with
  | zero => simp
  | succ k ih =>
    rw [List.replicate_succ', ← List.append_assoc, split_append_sep, ih,
      List.replicate_succ', List.append_assoc]

/-- A list against itself extended by `T`: only the parts of `T` are examined. -/
theorem restMatch_self_append (r : QString → QString → Bool) (hr : ∀ a, r a a = true)
    (A T : List QString) :
    restMatch r A (A ++ T) = T.all (fun b => (trimmed b).isEmpty) := by
  induction A with
  | nil => simp [restMatch]
  | cons a as ih => simp [restMatch, hr, ih]

/-- A list extended by `T` against itself: only the parts of `T` are examined. -/
theorem restMatch_append_self (r : QString → QString → Bool) (hr : ∀ a, r a a = true)
    (A T : List QString) :
    restMatch r (A ++ T) A = T.all (fun b => (trimmed b).isEmpty) := by
  induction A with
  | nil => cases T <;> simp [restMatch]
  | cons a as ih => simp [restMatch, hr, ih]

/-- The comparison of part lists is symmetric when `r` is. -/
theorem restMatch_comm (r : QString → QString → Bool) (hr : ∀ a b, r a b = r b a)
    (A B : List QString) : restMatch r A B = restMatch r B A := by
  induction A generalizing B with
  | nil => cases B <;> simp [restMatch]
  | cons a as ih =>
    cases B with
    | nil => simp [restMatch]
    | cons b bs => simp [restMatch, hr a b, ih bs]

/-- Every word list matches itself. -/
theorem wordsMatch_self (U : List QString) : wordsMatch U U = true := by
  have := restMatch_self_append (fun u v => decide (u = v)) (by simp) U []
  simpa [wordsMatch] using this

/-- The word comparison is symmetric. -/
theorem wordsMatch_comm (U V : List QString) : wordsMatch U V = wordsMatch V U :=
  restMatch_comm _ (fun a b => by simp [eq_comm]) U V

/-- The line comparison is symmetric. -/
theorem linesMatch_comm (A B : List QString) : linesMatch A B = linesMatch B A :=
  restMatch_comm _ (fun _ _ => wordsMatch_comm _ _) A B

/-- A run of line feeds holds no carriage return. -/
theorem remove_replicate_LF (k : Nat) : remove (List.replicate k LF) CR = List.replicate k LF := by
  simp [remove, List.filter_replicate, LF, CR]

/-- Empty parts trim to the empty text. -/
theorem all_blank_replicate_nil (k : Nat) :
    (List.replicate k ([] : QString)).all (fun b => (trimmed b).isEmpty) = true := by
  simp [List.all_eq_true, List.mem_replicate, trimmed]

/-- Every character of a part is a character of the text that was split. -/
theorem mem_of_mem_split (s : QString) (sep : QChar) :
    ∀ w ∈ split s sep, ∀ c ∈ w, c ∈ s := by
  induction s with
  | nil => intro w hw c hc; simp [split] at hw; subst hw; simp at hc
  | cons d ds ih =>
    intro w hw c hc
    simp only [split] at hw
    split_ifs at hw with hd
    · rcases List.mem_cons.mp hw with h | h
      · subst h; simp at hc
      · exact List.mem_cons_of_mem _ (ih w h c hc)
    · cases hsp : split ds sep with
      | nil => exact absurd hsp (split_ne_nil ds sep)
      | cons v vs =>
        rw [hsp] at hw ih
        rcases List.mem_cons.mp hw with h | h
        · subst h
          rcases List.mem_cons.mp hc with h2 | h2
          · subst h2; simp
          · exact List.mem_cons_of_mem _ (ih v (by simp) c h2)
        · exact List.mem_cons_of_mem _ (ih w (List.mem_cons_of_mem _ h) c hc)

/-- The parts of a text made of whitespace all trim to the empty text. -/
theorem split_all_blank (s : QString) (sep : QChar) (hs : ∀ c ∈ s, isSpace c = true) :
    (split s sep).all (fun w => (trimmed w).isEmpty) = true := by
  rw [List.all_eq_true]
  intro w hw
  rw [trimmed_isEmpty, List.all_eq_true]
  intro c hc
  exact hs c (mem_of_mem_split s sep w hw c hc)

/-- An empty line against a blank line: accepted exactly when the blank line is empty or
begins with a space. -/
theorem wordsMatch_empty_line (b : QString) (hb : (trimmed b).isEmpty = true) :
    wordsMatch (split [] SP) (split b SP) = true ↔ (b = [] ∨ b.head? = some SP) := by
  rw [trimmed_isEmpty, List.all_eq_true] at hb
  cases b with
  | nil => simp [split, wordsMatch, restMatch]
  | cons c cs =>
    simp only [split]
    split_ifs with hc
    · have := split_all_blank cs SP (fun d hd => hb d (List.mem_cons_of_mem _ hd))
      simp [wordsMatch, restMatch, this, hc]
    · cases hsp : split cs SP with
      | nil => exact absurd hsp (split_ne_nil cs SP)
      | cons v vs => simp [wordsMatch, restMatch, hc]

/-- One more empty line on the left of an accepted pair of line lists. -/
theorem linesMatch_snoc_empty (A B : List QString) (h : linesMatch A B = true) :
    linesMatch (A ++ [[]]) B = true ↔
      ∀ b, B[A.length]? = some b → (b = [] ∨ b.head? = some SP) := by
  induction A generalizing B with
  | nil =>
    cases B with
    | nil => simp [linesMatch, restMatch, trimmed]
    | cons b bs =>
      simp only [linesMatch, restMatch, List.all_cons, Bool.and_eq_true] at h
      have hw := wordsMatch_empty_line b h.1
      simp only [split] at hw
      simp only [linesMatch, restMatch, List.nil_append, split, Bool.and_eq_true, h.2, and_true,
        List.length_nil, List.getElem?_cons_zero, Option.some.injEq, forall_eq']
      cases hsp : restMatch (fun a b => wordsMatch (split a SP) (split b SP)) [] bs
      · simp [restMatch, h.2] at hsp
      · simpa [wordsMatch] using hw
  | cons a as ih =>
    cases B with
    | nil =>
      simp only [linesMatch, restMatch, Bool.and_eq_true] at h
      have h0 : (trimmed ([] : QString)).isEmpty = true := by simp [trimmed]
      simp [linesMatch, restMatch, h.1, h.2, h0, -List.all_eq_true]
    | cons b bs =>
      simp only [linesMatch, restMatch, Bool.and_eq_true] at h
      have := ih bs h.2
      simp only [linesMatch] at this
      simp [linesMatch, restMatch, h.1, this]

/-- Deleting carriage returns undoes `withCRLF`. -/
theorem remove_withCRLF (s : QString) : remove (withCRLF s) CR = remove s CR := by
  induction s with
  | nil => rfl
  | cons c cs ih =>
    simp only [withCRLF]
    split_ifs with h
    · subst h
      simp only [remove] at ih ⊢
      have h1 : (CR != CR) = false := by decide
      have h2 : (LF != CR) = true := by decide
      simp [List.filter_cons, ih, h1, h2]
    · simp only [remove] at ih ⊢
      simp [List.filter_cons, ih]

/-- Every line list matches itself. -/
theorem linesMatch_self (A : List QString) : linesMatch A A = true := by
  have := restMatch_self_append (fun a b => wordsMatch (split a SP) (split b SP))
    (fun a => wordsMatch_self _) A []
  simpa [linesMatch] using this

/-- The line list of a text matches itself. -/
theorem isVerdictPass_self_aux (s : QString) :
    some (linesMatch (split (remove s CR) LF) (split (remove s CR) LF)) = some true := by
  rw [linesMatch_self]

/-- A text without the separator is its own single part. -/
theorem split_of_not_mem (t : QString) (sep : QChar) (ht : ∀ c ∈ t, c ≠ sep) :
    split t sep = [t] := by
  induction t with
  | nil => rfl
  | cons c cs ih =>
    have h1 : c ≠ sep := ht c (by simp)
    have h2 := ih (fun d hd => ht d (List.mem_cons_of_mem _ hd))
    simp [split, h1, h2]

/-- Splitting at an occurrence of the separator. -/
theorem split_append_cons_sep (s t : QString) (sep : QChar) :
    split (s ++ sep :: t) sep = split s sep ++ split t sep := by
  induction s with
  | nil => simp [split]
  | cons c cs ih =>
    simp only [List.cons_append, split, List.append_eq]
    rw [ih]
    split_ifs
    · simp
    · cases h : split cs sep with
      | nil => exact absurd h (split_ne_nil cs sep)
      | cons w ws => simp

/-- Appending a text without the separator extends the last part. -/
theorem split_append_of_not_mem (s t : QString) (sep : QChar) (ht : ∀ c ∈ t, c ≠ sep) :
    split (s ++ t) sep = appendLast (split s sep) t := by
  induction s with
  | nil => simp [split, split_of_not_mem t sep ht, appendLast]
  | cons c cs ih =>
    simp only [List.cons_append, split, List.append_eq]
    rw [ih]
    cases h : split cs sep with
    | nil => exact absurd h (split_ne_nil cs sep)
    | cons w ws =>
      split_ifs
      · simp [appendLast]
      · cases ws <;> simp [appendLast]

/-- Only the last parts differ when the left list has `t` appended to its last part. -/
theorem restMatch_appendLast_left (r : QString → QString → Bool) (hr : ∀ a, r a a = true)
    (t : QString) : ∀ (L : List QString) (l : QString), L.getLast? = some l →
      restMatch r (appendLast L t) L = r (l ++ t) l
  | [], l, h => by simp at h
  | [l0], l, h => by
    simp at h; subst h
    simp [appendLast, restMatch]
  | l0 :: l1 :: ls, l, h => by
    rw [List.getLast?_cons_cons] at h
    simp [appendLast, restMatch, hr, restMatch_appendLast_left r hr t (l1 :: ls) l h]

/-- A split has a last part. -/
theorem split_getLast? (s : QString) (sep : QChar) : ∃ l, (split s sep).getLast? = some l := by
  cases h : (split s sep).getLast? with
  | none => exact absurd (List.getLast?_eq_none_iff.mp h) (split_ne_nil s sep)
  | some l => exact ⟨l, rfl⟩

/-- Deleting a character that does not occur changes nothing. -/
theorem remove_eq_self (w : QString) (c : QChar) (hw : ∀ d ∈ w, d ≠ c) : remove w c = w := by
  simp only [remove, List.filter_eq_self]
  intro d hd
  simpa using hw d hd

/-- What survives a deletion is in the text and is not the deleted character. -/
theorem mem_remove (s : QString) (c d : QChar) (h : d ∈ remove s c) : d ∈ s ∧ d ≠ c := by
  simpa [remove] using h

/-- Core of C6 and C7: the text `x` followed by a space and `w` against `x`, when `w` holds
no line feed and no carriage return: the result is whether all words of `w` are blank. -/
theorem linesMatch_space_suffix (x w : QString) (hLF : ∀ c ∈ w, c ≠ LF) :
    linesMatch (split (x ++ SP :: w) LF) (split x LF) =
      (split w SP).all (fun v => (trimmed v).isEmpty) := by
  have ht : ∀ c ∈ SP :: w, c ≠ LF := by
    intro c hc
    rcases List.mem_cons.mp hc with h | h
    · subst h; decide
    · exact hLF c h
  obtain ⟨l, hl⟩ := split_getLast? x LF
  rw [split_append_of_not_mem x (SP :: w) LF ht, linesMatch,
    restMatch_appendLast_left _ (fun a => wordsMatch_self _) (SP :: w) _ l hl,
    split_append_cons_sep, wordsMatch, restMatch_append_self _ (by simp)]

/-! ## The comparator: claims C1 to C8 -/

/-- C1: the early-return loops of `isVerdictPass` and the universally quantified reference
of spec 4.1 agree on every pair of texts: the comparator returns true exactly when the
reference holds and returns false exactly when it does not. -/
theorem isVerdictPass_refines_spec (output expected : QString) :
    (isVerdictPass output expected = some true ↔ isVerdictPassSpec output expected) ∧
    (isVerdictPass output expected = some false ↔ ¬ isVerdictPassSpec output expected) := by
  rw [isVerdictPass_eq, isVerdictPassSpec, ← linesMatch_iff_spec]
  cases linesMatch (split (remove output CR) LF) (split (remove expected CR) LF) <;> simp

/-- C2: trailing blank lines are tolerated on either side: a text and the same text followed
by any number `k` of line feeds compare as equal in both argument orders (`k = 0` is
reflexivity, and the empty text compares equal to itself). -/
theorem isVerdictPass_trailing_newlines (s : QString) (k : Nat) :
    isVerdictPass s (s ++ List.replicate k LF) = some true ∧
    isVerdictPass (s ++ List.replicate k LF) s = some true := by
  simp only [isVerdictPass_eq, remove_append, remove_replicate_LF, split_append_replicate,
    linesMatch]
  rw [restMatch_self_append _ (fun a => wordsMatch_self _),
    restMatch_append_self _ (fun a => wordsMatch_self _), all_blank_replicate_nil]
  simp

/-- C3, counterexample: output `a` is accepted against the expected text `a`, line feed,
tab, but output `a` followed by one line feed is rejected against the same expected text. -/
theorem isVerdictPass_extra_newline_counterexample :
    isVerdictPass [97] [97, 10, 9] = some true ∧
    isVerdictPass ([97] ++ [LF]) [97, 10, 9] = some false := by
  constructor <;> (rw [isVerdictPass_eq]; decide)

/-- C3, amended: for an accepted pair, the output followed by one more line feed is still
accepted exactly when the expected text (carriage returns deleted) has no line at index `n`,
`n` being the number of lines of the output, or that line is empty or begins with a space. -/
theorem isVerdictPass_extra_newline (output expected : QString)
    (h : isVerdictPass output expected = some true) :
    isVerdictPass (output ++ [LF]) expected = some true ↔
      ∀ b, (split (remove expected CR) LF)[(split (remove output CR) LF).length]? = some b →
        (b = [] ∨ b.head? = some SP) := by
  rw [isVerdictPass_eq, Option.some.injEq] at h
  have hLF : remove [LF] CR = [LF] := by decide
  rw [isVerdictPass_eq, Option.some.injEq, remove_append, hLF, split_append_sep]
  exact linesMatch_snoc_empty _ _ h

/-- C3, witness: output `6` against the expected text `6`, line feed, space, line feed. -/
theorem isVerdictPass_extra_newline_witness :
    isVerdictPass [54] [54, 10, 32, 10] = some true ∧
    (isVerdictPass ([54] ++ [LF]) [54, 10, 32, 10] = some true ↔
      ∀ b, (split (remove [54, 10, 32, 10] CR) LF)[(split (remove [54] CR) LF).length]? = some b →
        (b = [] ∨ b.head? = some SP)) :=
  ⟨by rw [isVerdictPass_eq]; decide,
   isVerdictPass_extra_newline [54] [54, 10, 32, 10] (by rw [isVerdictPass_eq]; decide)⟩

/-- C4: carriage returns are ignored wherever they occur: texts that are equal after
deleting every carriage return are interchangeable in either argument; in particular a
text and its rendering with CRLF line endings compare as equal. -/
theorem isVerdictPass_ignores_CR :
    (∀ a a' e e' : QString, remove a CR = remove a' CR → remove e CR = remove e' CR →
      isVerdictPass a e = isVerdictPass a' e') ∧
    (∀ s : QString, isVerdictPass s (withCRLF s) = some true ∧
      isVerdictPass (withCRLF s) s = some true) := by
  refine ⟨fun a a' e e' ha he => ?_, fun s => ?_⟩
  · simp only [isVerdictPass, ha, he]
  · have hs := isVerdictPass_self_aux s
    simp only [isVerdictPass_eq, remove_withCRLF]
    exact ⟨hs, hs⟩

/-- C4, witness: `a` CR LF against `b`, and `a` LF against CR `b`. -/
theorem isVerdictPass_ignores_CR_witness :
    remove [97, 13, 10] CR = remove [97, 10] CR ∧ remove [98] CR = remove [13, 98] CR ∧
      isVerdictPass [97, 13, 10] [98] = isVerdictPass [97, 10] [13, 98] :=
  ⟨by decide, by decide,
   isVerdictPass_ignores_CR.1 [97, 13, 10] [97, 10] [98] [13, 98] (by decide) (by decide)⟩

/-- C5, counterexample: no two texts are told apart by the order of the arguments, so the
claimed pair of texts with different results in the two orders does not exist. -/
theorem isVerdictPass_noncommutative_counterexample :
    ¬ ∃ a b : QString, isVerdictPass a b ≠ isVerdictPass b a := by
  rintro ⟨a, b, h⟩
  exact h (by rw [isVerdictPass_eq, isVerdictPass_eq, linesMatch_comm])

/-- C5, amended: the comparator is commutative: swapping output and expected text never
changes the result. -/
theorem isVerdictPass_comm (a b : QString) : isVerdictPass a b = isVerdictPass b a := by
  rw [isVerdictPass_eq, isVerdictPass_eq, linesMatch_comm]

/-- C6, counterexample: the residual word consisting of one vertical tab is non-empty and
holds no space, tab, line feed or carriage return, yet `a`, space, vertical tab is accepted
against `a`. -/
theorem isVerdictPass_residual_word_counterexample :
    ([VT] : QString) ≠ [] ∧ (∀ c ∈ ([VT] : QString), c ≠ SP ∧ c ≠ TAB ∧ c ≠ LF ∧ c ≠ CR) ∧
      isVerdictPass ([97] ++ [SP] ++ [VT]) [97] = some true := by
  refine ⟨by decide, by decide, ?_⟩
  rw [isVerdictPass_eq]; decide

/-- C6, amended: a non-empty residual word none of whose characters is whitespace in the
sense of `QChar::isSpace` is never tolerated, on either side. -/
theorem isVerdictPass_residual_word (x w : QString) (hne : w ≠ [])
    (hw : ∀ c ∈ w, isSpace c = false) :
    isVerdictPass (x ++ [SP] ++ w) x = some false ∧
    isVerdictPass x (x ++ [SP] ++ w) = some false := by
  have hCR : ∀ c ∈ w, c ≠ CR := by
    intro c hc h; subst h; exact absurd (hw _ hc) (by decide)
  have hLF : ∀ c ∈ w, c ≠ LF := by
    intro c hc h; subst h; exact absurd (hw _ hc) (by decide)
  have hSP : ∀ c ∈ w, c ≠ SP := by
    intro c hc h; subst h; exact absurd (hw _ hc) (by decide)
  have hrem : remove (x ++ [SP] ++ w) CR = remove x CR ++ SP :: w := by
    have h1 : remove [SP] CR = [SP] := by decide
    rw [remove_append, remove_append, h1, remove_eq_self w CR hCR]
    simp
  have hblank : (trimmed w).isEmpty = false := by
    rw [trimmed_isEmpty]
    cases w with
    | nil => exact absurd rfl hne
    | cons c cs => simp [hw c (by simp)]
  have key : linesMatch (split (remove x CR ++ SP :: w) LF) (split (remove x CR) LF) = false := by
    rw [linesMatch_space_suffix _ w hLF, split_of_not_mem w SP hSP]
    simp [hblank]
  constructor
  · rw [isVerdictPass_eq, hrem, key]
  · rw [isVerdictPass_eq, hrem, linesMatch_comm, key]

/-- C6, witness: `a b` against `a`, the residual word being `b`. -/
theorem isVerdictPass_residual_word_witness :
    ([98] : QString) ≠ [] ∧ (∀ c ∈ ([98] : QString), isSpace c = false) ∧
      isVerdictPass ([97] ++ [SP] ++ [98]) [97] = some false ∧
      isVerdictPass [97] ([97] ++ [SP] ++ [98]) = some false :=
  ⟨by decide, by decide, isVerdictPass_residual_word [97] [98] (by decide) (by decide)⟩

/-- C7, counterexample: a single tab is whitespace and not a line break, yet `a` followed by
a tab is rejected against `a`. -/
theorem isVerdictPass_trailing_whitespace_counterexample :
    (∀ c ∈ ([TAB] : QString), isSpace c = true ∧ c ≠ LF ∧ c ≠ CR) ∧
      isVerdictPass ([97] ++ [TAB]) [97] = some false := by
  refine ⟨by decide, ?_⟩
  rw [isVerdictPass_eq]; decide

/-- C7, amended: trailing whitespace is tolerated on either side when it is empty or begins
with a space: for every text `s` and every `t` made of whitespace characters other than
line feed that is empty or whose first character is a space, `s` followed by `t` and `s`
compare as equal in both orders. -/
theorem isVerdictPass_trailing_whitespace (s t : QString)
    (ht : ∀ c ∈ t, isSpace c = true ∧ c ≠ LF) (hhead : t = [] ∨ t.head? = some SP) :
    isVerdictPass (s ++ t) s = some true ∧ isVerdictPass s (s ++ t) = some true := by
  have key : linesMatch (split (remove (s ++ t) CR) LF) (split (remove s CR) LF) = true := by
    cases t with
    | nil => simp [linesMatch_self]
    | cons c t1 =>
      have hc : c = SP := by simpa using hhead
      subst hc
      have h1 : remove (SP :: t1) CR = SP :: remove t1 CR := by
        have h2 : (SP != CR) = true := by decide
        simp [remove, List.filter_cons, h2]
      rw [remove_append, h1, linesMatch_space_suffix]
      · apply split_all_blank
        intro d hd
        exact (ht d (List.mem_cons_of_mem _ (mem_remove _ _ _ hd).1)).1
      · intro d hd
        exact (ht d (List.mem_cons_of_mem _ (mem_remove _ _ _ hd).1)).2
  constructor
  · rw [isVerdictPass_eq, key]
  · rw [isVerdictPass_eq, linesMatch_comm, key]

/-- C7, witness: `a` followed by a space and a tab, against `a`. -/
theorem isVerdictPass_trailing_whitespace_witness :
    (∀ c ∈ ([32, 9] : QString), isSpace c = true ∧ c ≠ LF) ∧
      (([32, 9] : QString) = [] ∨ ([32, 9] : QString).head? = some SP) ∧
      isVerdictPass ([97] ++ [32, 9]) [97] = some true ∧
      isVerdictPass [97] ([97] ++ [32, 9]) = some true :=
  ⟨by decide, by decide, isVerdictPass_trailing_whitespace [97] [32, 9] (by decide) (by decide)⟩

/-- C8: the comparator is total: from every entry index both loops return a boolean, and so
does `isVerdictPass` on every pair of texts, the empty ones included; no access
`a_lines[i]`, `b_lines[i]`, `a_words[j]`, `b_words[j]` on the executed path is out of
range (such an access is the only source of `none`). -/
theorem isVerdictPass_total :
    (∀ (a_words b_words : List QString) (j : Nat), ∃ r, wordLoop a_words b_words j = some r) ∧
    (∀ (a_lines b_lines : List QString) (i : Nat), ∃ r, lineLoop a_lines b_lines i = some r) ∧
    (∀ output expected : QString, ∃ r, isVerdictPass output expected = some r) :=
  ⟨fun a b j => ⟨_, wordLoop_eq a b j⟩, fun a b i => ⟨_, lineLoop_eq a b i⟩,
   fun o e => ⟨_, isVerdictPass_eq o e⟩⟩

/-! ## Auxiliary lemmas: `tmpPath`, `saveTemp` and `run` always return -/

/-- Saving an untitled file in mode `IgnoreUntitled` fails: `saveFile` returns false. -/
theorem saveFile_untitled (env : Env) (input expected : Fin 3 → QString) (head : String)
    (s : FileState) (hu : isUntitled s = true) :
    (saveFile env input expected .IgnoreUntitled head s).1 = false := by
  unfold saveFile
  have h1 : isUntitled (format env s) = true := hu
  by_cases hf : s.data.isFormatOnSave = true <;> simp [hf, hu, h1]

/-- With a valid temporary directory `tmpPath` returns without touching the directory. -/
theorem tmpPath_of_valid (env : Env) (input expected : Fin 3 → QString) (s : FileState)
    (hv : hasValidTmpDir s = true) :
    ∃ p s', tmpPath env input expected s = some (p, s') ∧ s'.tmpDir = s.tmpDir := by
  obtain ⟨d, hd⟩ : ∃ d, s.tmpDir = some d := by
    unfold hasValidTmpDir at hv
    cases h : s.tmpDir with
    | none => simp [h] at hv
    | some d => exact ⟨d, rfl⟩
  rw [tmpPath]
  by_cases hu : isUntitled s = true
  · have hnv : ¬ hasValidTmpDir s = false := by simp [hv]
    simp only [hu, Bool.not_true, Bool.false_eq_true, if_false, dif_neg hnv, hd]
    split_ifs <;> refine ⟨_, _, rfl, ?_⟩ <;> simp [FileState.logMessage, hd]
  · simp only [hu, Bool.not_false, if_true]
    exact ⟨_, _, rfl, rfl⟩

/-- The method `saveTemp` always returns; on an untitled file a successful return leaves a
temporary directory behind. -/
theorem saveTemp_returns (env : Env) (input expected : Fin 3 → QString) (head : String)
    (s : FileState) :
    ∃ b s', saveTemp env input expected head s = some (b, s') ∧
      (isUntitled s = true → b = true → ∃ d, s'.tmpDir = some d) := by
  rw [saveTemp]
  by_cases hr : (saveFile env input expected .IgnoreUntitled head s).1 = true
  · refine ⟨true, (saveFile env input expected .IgnoreUntitled head s).2, by simp [hr],
      fun hu _ => ?_⟩
    rw [saveFile_untitled env input expected head s hu] at hr
    exact absurd hr (by simp)
  · simp only [Bool.not_eq_true] at hr
    simp only [hr, Bool.not_false, if_true]
    by_cases hv : hasValidTmpDir
        { (saveFile env input expected .IgnoreUntitled head s).2.step with
          tmpDir := some (env.newTmpDir (saveFile env input expected .IgnoreUntitled head s).2.clock) }
          = false
    · rw [dif_pos hv]
      exact ⟨false, _, rfl, fun _ h => absurd h (by simp)⟩
    · rw [dif_neg hv]
      simp only [Bool.not_eq_false] at hv
      obtain ⟨p, s2, h2, h3⟩ := tmpPath_of_valid env input expected _ hv
      rw [h2]
      by_cases hw : env.writeOk s2.clock = true
      · simp only [hw, Bool.not_true, Bool.false_eq_true, if_false]
        exact ⟨true, s2.step, rfl, fun _ _ => ⟨_, h3⟩⟩
      · simp only [Bool.not_eq_true] at hw
        simp only [hw, Bool.not_false, if_true]
        exact ⟨false, _, rfl, fun _ h => absurd h (by simp)⟩

/-- The method `tmpPath` always returns: no null `tmpDir` is dereferenced. -/
theorem tmpPath_returns (env : Env) (input expected : Fin 3 → QString) (s : FileState) :
    ∃ p s', tmpPath env input expected s = some (p, s') := by
  by_cases hv : hasValidTmpDir s = true
  · obtain ⟨p, s', h, _⟩ := tmpPath_of_valid env input expected s hv
    exact ⟨p, s', h⟩
  · simp only [Bool.not_eq_true] at hv
    rw [tmpPath]
    by_cases hu : isUntitled s = true
    · obtain ⟨b, s1, h1, h2⟩ := saveTemp_returns env input expected "Temp Saver" s
      simp only [hu, Bool.not_true, Bool.false_eq_true, if_false, dif_pos hv, h1]
      cases b with
      | false => exact ⟨_, _, rfl⟩
      | true =>
        obtain ⟨d, hd⟩ := h2 hu rfl
        simp only [hd]
        split_ifs <;> exact ⟨_, _, rfl⟩
    · simp [hu]

/-- After `clearTests(true)` every output is empty and every verdict is Unknown; inputs and
expected outputs are kept. -/
theorem clearTests_outputOnly (s : MainWindow) :
    (∀ j, (clearTests true s).verdict j = verdictLabel .UNKNOWN) ∧
    (∀ j, (clearTests true s).output j = []) ∧
    (clearTests true s).input = s.input ∧ (clearTests true s).expected = s.expected := by
  refine ⟨fun j => ?_, fun j => ?_, rfl, rfl⟩
  · fin_cases j <;> simp [clearTests, clearTestsStep, updateVerdict, Function.update]
  · fin_cases j <;> simp [clearTests, clearTestsStep, updateVerdict, Function.update]

/-- The addresses removed from the heap by deleting what a handle points to: nothing is
removed for a null handle. -/
theorem deleteObj_none_eq (live : List Obj) :
    live.filter (fun o => decide (some o.addr ≠ (none : Option Nat))) = live := by
  simp

/-- Deleting the compiler when there is one: the handle is null afterwards and the heap
loses the object it pointed to. -/
theorem kill_compiler (s : MainWindow) :
    (match s.compiler with
      | some c => { s with live := deleteObj c.addr s.live, compiler := none }
      | none => s) =
      { s with compiler := none,
               live := s.live.filter
                 (fun o => decide (some o.addr ≠ s.compiler.map Compiler.addr)) } := by
  cases h : s.compiler with
  | none =>
    cases s
    simp_all
  | some c =>
    simp only [deleteObj, Option.map_some', ne_eq, Option.some.injEq]
    congr 1
    apply List.filter_congr
    intro o _
    by_cases hoa : o.addr = c.addr <;> simp [hoa, bne]

/-- Deleting the runner of slot `t` when there is one. -/
theorem kill_runner (s : MainWindow) (t : Fin 3) :
    (match s.runner t with
      | some r =>
        { s with live := deleteObj r.addr s.live, runner := Function.update s.runner t none }
      | none => s) =
      { s with runner := Function.update s.runner t none,
               live := s.live.filter
                 (fun o => decide (some o.addr ≠ (s.runner t).map Runner.addr)) } := by
  cases h : s.runner t with
  | none =>
    have hu : Function.update s.runner t none = s.runner := by
      rw [← h]; exact Function.update_eq_self t s.runner
    rw [hu]
    cases s
    simp_all
  | some r =>
    simp only [deleteObj, Option.map_some', ne_eq, Option.some.injEq]
    congr 1
    apply List.filter_congr
    intro o _
    by_cases hoa : o.addr = r.addr <;> simp [hoa, bne]

/-- Deleting the detached runner when there is one. -/
theorem kill_detachedRunner (s : MainWindow) :
    (match s.detachedRunner with
      | some r => { s with live := deleteObj r.addr s.live, detachedRunner := none }
      | none => s) =
      { s with detachedRunner := none,
               live := s.live.filter
                 (fun o => decide (some o.addr ≠ s.detachedRunner.map Runner.addr)) } := by
  cases h : s.detachedRunner with
  | none =>
    cases s
    simp_all
  | some r =>
    simp only [deleteObj, Option.map_some', ne_eq, Option.some.injEq]
    congr 1
    apply List.filter_congr
    intro o _
    by_cases hoa : o.addr = r.addr <;> simp [hoa, bne]

/-- The loop of `killProcesses` over the three runner handles sets them all to null and
removes their objects from the heap. -/
theorem kill_runners (s : MainWindow) :
    ([0, 1, 2] : List (Fin 3)).foldl
      (fun s t => match s.runner t with
        | some r =>
          { s with live := deleteObj r.addr s.live,
                   runner := Function.update s.runner t none }
        | none => s) s =
      { s with runner := fun _ => none,
               live := ((s.live.filter
                 (fun o => decide (some o.addr ≠ (s.runner 0).map Runner.addr))).filter
                 (fun o => decide (some o.addr ≠ (s.runner 1).map Runner.addr))).filter
                 (fun o => decide (some o.addr ≠ (s.runner 2).map Runner.addr)) } := by
  have hfun : (fun (s : MainWindow) (t : Fin 3) =>
      match s.runner t with
      | some r =>
        { s with live := deleteObj r.addr s.live, runner := Function.update s.runner t none }
      | none => s) =
      fun s t => { s with runner := Function.update s.runner t none,
                          live := s.live.filter
                            (fun o => decide (some o.addr ≠ (s.runner t).map Runner.addr)) } := by
    funext s t
    exact kill_runner s t
  rw [hfun]
  simp only [List.foldl]
  have h1 : Function.update s.runner 0 none 1 = s.runner 1 := by
    simp [Function.update]
  have h2 : Function.update (Function.update s.runner 0 none) 1 none 2 = s.runner 2 := by
    simp [Function.update]
  simp only [h1, h2]
  congr 1
  funext t
  fin_cases t <;> simp [Function.update]

/-- The method `killProcesses` sets the five handles to null, deletes the objects they
pointed to and changes nothing else. -/
theorem killProcesses_eq (s : MainWindow) :
    killProcesses s =
      { s with compiler := none, runner := fun _ => none, detachedRunner := none,
               live := liveAfterKill s } := by
  have h : killProcesses s =
      (fun s2 : MainWindow =>
        match s2.detachedRunner with
        | some r => { s2 with live := deleteObj r.addr s2.live, detachedRunner := none }
        | none => s2)
      (([0, 1, 2] : List (Fin 3)).foldl
        (fun s t => match s.runner t with
          | some r =>
            { s with live := deleteObj r.addr s.live,
                     runner := Function.update s.runner t none }
          | none => s)
        (match s.compiler with
          | some c => { s with live := deleteObj c.addr s.live, compiler := none }
          | none => s)) := rfl
  rw [h, kill_compiler, kill_runners]
  exact kill_detachedRunner _

/-- One round of the loop of `run` returns and keeps the slots' texts and verdicts. -/
theorem runStep_returns (env : Env) (command args : QString) (isRun : Bool) (s : MainWindow)
    (i : Fin 3) :
    ∃ b s', runStep env command args (some (isRun, s)) i = some (b, s') ∧
      s'.verdict = s.verdict ∧ s'.output = s.output ∧ s'.input = s.input ∧
      s'.expected = s.expected := by
  unfold runStep
  by_cases hb : (trimmed (s.input i)).isEmpty = true
  · simp only [hb, Bool.not_true, Bool.false_eq_true, if_false]
    exact ⟨_, _, rfl, rfl, rfl, rfl, rfl⟩
  · simp only [Bool.not_eq_true] at hb
    simp only [hb, Bool.not_false, if_true]
    obtain ⟨p, f, hf⟩ := tmpPath_returns env s.input s.expected s.toFileState
    simp only [hf]
    exact ⟨_, _, rfl, rfl, rfl, rfl, rfl⟩

/-- The method `run` always returns; afterwards every verdict is Unknown and every output
is empty, and inputs and expected outputs are as before. -/
theorem run_returns (env : Env) (s : MainWindow) :
    ∃ s', run env s = some s' ∧ (∀ j, s'.verdict j = verdictLabel .UNKNOWN) ∧
      (∀ j, s'.output j = []) ∧ s'.input = s.input ∧ s'.expected = s.expected := by
  obtain ⟨hv, ho, hi, he⟩ := clearTests_outputOnly (killProcesses s)
  have hki : (killProcesses s).input = s.input := by rw [killProcesses_eq]
  have hke : (killProcesses s).expected = s.expected := by rw [killProcesses_eq]
  rw [hki] at hi
  rw [hke] at he
  unfold run
  simp only []
  generalize clearTests true (killProcesses s) = c at hv ho hi he
  split
  · rename_i hd
    refine ⟨_, rfl, ?_, ?_, ?_, ?_⟩
    · exact hv
    · exact ho
    · exact hi
    · exact he
  · rename_i command args hd
    simp only [List.foldl]
    obtain ⟨b0, s0, h0, v0, o0, i0, e0⟩ := runStep_returns env command args false c 0
    obtain ⟨b1, s1, h1, v1, o1, i1, e1⟩ := runStep_returns env command args b0 s0 1
    obtain ⟨b2, s2, h2, v2, o2, i2, e2⟩ := runStep_returns env command args b1 s1 2
    rw [h0, h1, h2]
    simp only []
    have hvv : ∀ j, s2.verdict j = verdictLabel .UNKNOWN := by
      intro j; rw [v2, v1, v0]; exact hv j
    have hoo : ∀ j, s2.output j = [] := by
      intro j; rw [o2, o1, o0]; exact ho j
    have hii : s2.input = s.input := by rw [i2, i1, i0, hi]
    have hee : s2.expected = s.expected := by rw [e2, e1, e0, he]
    by_cases hb : b2 = true
    · simp only [hb, Bool.not_true, Bool.false_eq_true, if_false]
      exact ⟨_, rfl, hvv, hoo, hii, hee⟩
    · simp only [Bool.not_eq_true] at hb
      simp only [hb, Bool.not_false, if_true]
      exact ⟨_, rfl, hvv, hoo, hii, hee⟩

/-- With exit code 0 the slot `onRunFinished` logs, stores the output and then decides the
verdict; `s2` is the window after logging. -/
theorem onRunFinished_zero_eq (i : Fin 3) (out err : QString) (timeUsed : Int)
    (s : MainWindow) :
    ∃ s2 : MainWindow, s2.expected = s.expected ∧ s2.verdict = s.verdict ∧
      s2.output = s.output ∧
      onRunFinished i out err 0 timeUsed s =
        if (s.expected i).isEmpty then
          some { s2 with output := Function.update s.output i out }
        else
          match isVerdictPass out (s.expected i) with
          | none => none
          | some true =>
            some (updateVerdict .ACCEPTED i { s2 with output := Function.update s.output i out })
          | some false =>
            some (updateVerdict .WRONG_ANSWER i
              { s2 with output := Function.update s.output i out }) := by
  by_cases herr : (trimmed err).isEmpty = true
  · refine ⟨s.logMessage .info (getRunnerHead i.val)
      ("Execution for test case #" ++ toString (i.val + 1) ++ " has finished in " ++
        toString timeUsed ++ "ms"), rfl, rfl, rfl, ?_⟩
    unfold onRunFinished
    simp only [if_true, herr, Bool.not_true, Bool.false_eq_true, if_false]
    by_cases he : (s.expected i).isEmpty = true
    · simp only [MainWindow.logMessage, he, Bool.not_true, Bool.false_eq_true, if_false, if_true]
    · simp only [Bool.not_eq_true] at he
      simp only [MainWindow.logMessage, he, Bool.not_false, if_true, Bool.false_eq_true,
        if_false]
  · simp only [Bool.not_eq_true] at herr
    refine ⟨(s.logMessage .info (getRunnerHead i.val)
      ("Execution for test case #" ++ toString (i.val + 1) ++ " has finished in " ++
        toString timeUsed ++ "ms")).logMessage .error (getRunnerHead i.val ++ "/stderr")
        (toStdString err), rfl, rfl, rfl, ?_⟩
    unfold onRunFinished
    simp only [if_true, herr, Bool.not_false]
    by_cases he : (s.expected i).isEmpty = true
    · simp only [MainWindow.logMessage, he, Bool.not_true, Bool.false_eq_true, if_false, if_true]
    · simp only [Bool.not_eq_true] at he
      simp only [MainWindow.logMessage, he, Bool.not_false, if_true, Bool.false_eq_true,
        if_false]

/-- With a non-zero exit code the slot `onRunFinished` only logs. -/
theorem onRunFinished_nonzero_eq (i : Fin 3) (out err : QString) (exitCode timeUsed : Int)
    (s : MainWindow) (h : exitCode ≠ 0) :
    ∃ s2 : MainWindow, onRunFinished i out err exitCode timeUsed s = some s2 ∧
      s2.expected = s.expected ∧ s2.verdict = s.verdict ∧
      s2.output = s.output ∧ s2.input = s.input := by
  unfold onRunFinished
  simp only [if_neg h]
  split_ifs <;> exact ⟨_, rfl, rfl, rfl, rfl, rfl⟩

/-! ## Verdict assignment: claims C9 and C10 -/

/-- C9: on a successful run (exit code 0) of slot `i`, `onRunFinished` returns, stores `out`
as the actual output of slot `i`, sets the verdict of slot `i` to Accepted when the expected
output is non-empty and the comparator passes, to WrongAnswer when it is non-empty and the
comparator fails, and leaves all verdicts as they were when the expected output is empty;
in a window just returned by `run` that verdict is Unknown. -/
theorem onRunFinished_exit_zero (i : Fin 3) (out err : QString) (timeUsed : Int)
    (s : MainWindow) :
    ∃ s', onRunFinished i out err 0 timeUsed s = some s' ∧ s'.output i = out ∧
      (s.expected i ≠ [] → isVerdictPass out (s.expected i) = some true →
        s'.verdict i = verdictLabel .ACCEPTED) ∧
      (s.expected i ≠ [] → isVerdictPass out (s.expected i) = some false →
        s'.verdict i = verdictLabel .WRONG_ANSWER) ∧
      (s.expected i = [] → s'.verdict = s.verdict) ∧
      (s.expected i = [] → ∀ env s0, run env s0 = some s →
        s'.verdict i = verdictLabel .UNKNOWN) := by
  obtain ⟨s2, _, hv2, _, heq⟩ := onRunFinished_zero_eq i out err timeUsed s
  by_cases he : s.expected i = []
  · have h1 : onRunFinished i out err 0 timeUsed s =
        some { s2 with output := Function.update s.output i out } := by
      rw [heq, if_pos (by simp [he])]
    refine ⟨_, h1, by simp, fun h => absurd he h, fun h => absurd he h,
      fun _ => hv2, fun _ env s0 hrun => ?_⟩
    obtain ⟨s1, hr, hv, _⟩ := run_returns env s0
    rw [hrun] at hr
    cases hr
    show s2.verdict i = _
    rw [hv2]
    exact hv i
  · have hne : ¬ (s.expected i).isEmpty = true := by
      simpa using he
    rw [if_neg hne] at heq
    cases hp : isVerdictPass out (s.expected i) with
    | none =>
      rw [isVerdictPass_eq] at hp
      exact absurd hp (by simp)
    | some b =>
      rw [hp] at heq
      cases b with
      | true =>
        exact ⟨_, heq, by simp [updateVerdict], fun _ _ => by simp [updateVerdict],
          fun _ h => by simp at h, fun h => absurd h he, fun h => absurd h he⟩
      | false =>
        exact ⟨_, heq, by simp [updateVerdict], fun _ h => by simp at h,
          fun _ _ => by simp [updateVerdict], fun h => absurd h he, fun h => absurd h he⟩

/-- C9, witness: the scenario of spec section 8: the first slot expects `6`, line feed, the
program prints `6`, line feed and exits with code 0: the verdict is Accepted. -/
theorem onRunFinished_exit_zero_witness :
    ∃ s', onRunFinished 0 [54, 10] [] 0 12 sampleWindow = some s' ∧ s'.output 0 = [54, 10] ∧
      s'.verdict 0 = verdictLabel .ACCEPTED := by
  obtain ⟨s', h, ho, ha, _⟩ := onRunFinished_exit_zero 0 [54, 10] [] 12 sampleWindow
  exact ⟨s', h, ho, ha (by decide) (by rw [isVerdictPass_eq]; decide)⟩

/-- C10: a non-zero exit code never yields a verdict: `onRunFinished` returns and leaves the
verdict and the actual output of every slot unchanged; hence after `run`, which always
returns, followed by such an event the verdict of slot `i` is Unknown, whatever the
comparator would say about `out`. -/
theorem onRunFinished_exit_nonzero (i : Fin 3) (out err : QString) (exitCode timeUsed : Int)
    (h : exitCode ≠ 0) :
    (∀ s, ∃ s', onRunFinished i out err exitCode timeUsed s = some s' ∧
      s'.verdict = s.verdict ∧ s'.output = s.output) ∧
    (∀ env s0, ∃ s1 s2, run env s0 = some s1 ∧
      onRunFinished i out err exitCode timeUsed s1 = some s2 ∧
      s2.verdict i = verdictLabel .UNKNOWN) := by
  constructor
  · intro s
    obtain ⟨s2, heq, _, hv, ho, _⟩ := onRunFinished_nonzero_eq i out err exitCode timeUsed s h
    exact ⟨s2, heq, hv, ho⟩
  · intro env s0
    obtain ⟨s1, h1, hv1, _⟩ := run_returns env s0
    obtain ⟨s2, heq, _, hv, _, _⟩ := onRunFinished_nonzero_eq i out err exitCode timeUsed s1 h
    exact ⟨s1, s2, h1, heq, by rw [hv]; exact hv1 i⟩

/-- C10, witness: the program of the example window prints the right answer but exits with
code 1: nothing changes, and after `run` the verdict of the first slot is Unknown. -/
theorem onRunFinished_exit_nonzero_witness :
    (1 : Int) ≠ 0 ∧
    (∃ s', onRunFinished 0 [54, 10] [] 1 12 sampleWindow = some s' ∧
      s'.verdict = sampleWindow.verdict ∧ s'.output = sampleWindow.output) ∧
    (∃ s1 s2, run sampleEnv sampleWindow = some s1 ∧
      onRunFinished 0 [54, 10] [] 1 12 s1 = some s2 ∧
      s2.verdict 0 = verdictLabel .UNKNOWN) :=
  ⟨by decide,
   (onRunFinished_exit_nonzero 0 [54, 10] [] 1 12 (by decide)).1 sampleWindow,
   (onRunFinished_exit_nonzero 0 [54, 10] [] 1 12 (by decide)).2 sampleEnv sampleWindow⟩

/-! ## Auxiliary lemmas: what the file operations change -/

/-- Nothing changed. -/
theorem FileFrame.refl (heads : List String) (s : FileState) : FileFrame heads s s :=
  ⟨rfl, rfl, rfl, [], by simp, by simp⟩

/-- Two changes in a row. -/
theorem FileFrame.trans {heads : List String} {s1 s2 s3 : FileState}
    (h1 : FileFrame heads s1 s2) (h2 : FileFrame heads s2 s3) : FileFrame heads s1 s3 := by
  obtain ⟨a1, a2, a3, l1, a4, a5⟩ := h1
  obtain ⟨b1, b2, b3, l2, b4, b5⟩ := h2
  refine ⟨b1.trans a1, b2.trans a2, b3.trans a3, l1 ++ l2, ?_, ?_⟩
  · rw [b4, a4, List.append_assoc]
  · intro x hx
    rcases List.mem_append.mp hx with h | h
    · exact a5 x h
    · exact b5 x h

/-- More heads allowed. -/
theorem FileFrame.mono {heads heads' : List String} {s s' : FileState}
    (hsub : ∀ h ∈ heads, h ∈ heads') (h : FileFrame heads s s') : FileFrame heads' s s' := by
  obtain ⟨a1, a2, a3, l1, a4, a5⟩ := h
  exact ⟨a1, a2, a3, l1, a4, fun x hx => hsub _ (a5 x hx)⟩

/-- One entry is logged. -/
theorem fileFrame_logMessage (heads : List String) (s : FileState) (l : Level)
    (h b : String) (hh : h ∈ heads) : FileFrame heads s (s.logMessage l h b) :=
  ⟨rfl, rfl, rfl, [⟨l, h, b⟩], rfl, by simpa using hh⟩

/-- One interaction with the outside world. -/
theorem fileFrame_step (heads : List String) (s : FileState) : FileFrame heads s s.step :=
  ⟨rfl, rfl, rfl, [], by simp [FileState.step], by simp⟩

/-- The formatter logs under its own head. -/
theorem fileFrame_format (heads : List String) (env : Env) (s : FileState)
    (hh : "Formatter" ∈ heads) : FileFrame heads s (format env s) := by
  refine ⟨rfl, rfl, rfl, _, rfl, ?_⟩
  intro x hx
  simp only [List.mem_map] at hx
  obtain ⟨e, _, rfl⟩ := hx
  exact hh

/-- One round of `saveTests`. -/
theorem fileFrame_saveTestsStep (heads : List String) (env : Env)
    (input expected : Fin 3 → QString) (s : FileState) (i : Fin 3) (hh : "Tests" ∈ heads) :
    FileFrame heads s (saveTestsStep env input expected s i) := by
  have key : ∀ (c : Bool) (msg : String) (t : FileState),
      FileFrame heads t
        (if c then
          (if !env.writeOk t.clock then t.step.logMessage .error "Tests" msg else t.step)
        else t) := by
    intro c msg t
    cases c
    · exact FileFrame.refl _ _
    · simp only [if_true]
      cases env.writeOk t.clock
      · exact (fileFrame_step heads t).trans (fileFrame_logMessage heads _ _ _ _ hh)
      · exact fileFrame_step heads t
  unfold saveTestsStep
  exact (key _ _ s).trans (key _ _ _)

/-- The method `saveTests`. -/
theorem fileFrame_saveTests (heads : List String) (env : Env)
    (input expected : Fin 3 → QString) (s : FileState) (hh : "Tests" ∈ heads) :
    FileFrame heads s (saveTests env input expected s) := by
  unfold saveTests
  split_ifs
  · exact FileFrame.refl _ _
  · simp only [List.foldl]
    exact ((fileFrame_saveTestsStep heads env input expected _ 0 hh).trans
      (fileFrame_saveTestsStep heads env input expected _ 1 hh)).trans
      (fileFrame_saveTestsStep heads env input expected _ 2 hh)

/-- The method `saveFile` in mode `IgnoreUntitled`: no dialog is shown and the language is
not set; a titled file is written and its tests saved, an untitled one is not saved. -/
theorem saveFile_ignoreUntitled (env : Env) (input expected : Fin 3 → QString)
    (head : String) (s : FileState) :
    saveFile env input expected .IgnoreUntitled head s =
      if isUntitled s = true then
        (false, if s.data.isFormatOnSave then format env s else s)
      else if env.writeOk (if s.data.isFormatOnSave then format env s else s).clock = true then
        (true, saveTests env input expected
          (if s.data.isFormatOnSave then format env s else s).step)
      else
        (false, (if s.data.isFormatOnSave then format env s else s).step.logMessage .error head
          ("Failed to save file to [" ++ toStdString s.filePath ++
            "]. Do I have write permission?")) := by
  have hu : isUntitled (if s.data.isFormatOnSave then format env s else s) = isUntitled s := by
    split_ifs <;> rfl
  have hp : (if s.data.isFormatOnSave then format env s else s).step.filePath = s.filePath := by
    split_ifs <;> rfl
  unfold saveFile
  simp only [reduceCtorEq, and_false, or_self, if_false, hu, hp]
  by_cases h1 : isUntitled s = true
  · simp [h1]
  · simp only [Bool.not_eq_true] at h1
    simp only [h1, Bool.not_false, if_true, Bool.false_eq_true, if_false]
    by_cases h2 : env.writeOk (if s.data.isFormatOnSave then format env s else s).clock = true
    · simp [h2]
    · simp only [Bool.not_eq_true] at h2
      simp [h2]

/-- The method `saveFile` in mode `IgnoreUntitled` keeps language, file path and settings
and logs only under its own head and those of the formatter and the tests. -/
theorem fileFrame_saveFile (heads : List String) (env : Env)
    (input expected : Fin 3 → QString) (head : String) (s : FileState)
    (h1 : head ∈ heads) (h2 : "Formatter" ∈ heads) (h3 : "Tests" ∈ heads) :
    FileFrame heads s (saveFile env input expected .IgnoreUntitled head s).2 := by
  have hf : FileFrame heads s (if s.data.isFormatOnSave then format env s else s) := by
    split_ifs
    · exact fileFrame_format heads env s h2
    · exact FileFrame.refl _ _
  rw [saveFile_ignoreUntitled]
  generalize (if s.data.isFormatOnSave = true then format env s else s) = t at hf
  split_ifs
  · exact hf
  · exact hf.trans ((fileFrame_step heads _).trans (fileFrame_saveTests heads env _ _ _ h3))
  · exact hf.trans ((fileFrame_step heads _).trans (fileFrame_logMessage heads _ _ _ _ h1))

/-- The method `saveTemp` is its body around the call of `tmpPath`. -/
theorem saveTemp_eq_body (env : Env) (input expected : Fin 3 → QString) (head : String)
    (s : FileState) :
    saveTemp env input expected head s =
      saveTempBody (tmpPath env input expected) env input expected head s := by
  rw [saveTemp]
  unfold saveTempBody
  simp only [dite_eq_ite]

/-- The method `tmpPath` is its body around the call of `saveTemp`. -/
theorem tmpPath_eq_body (env : Env) (input expected : Fin 3 → QString) (s : FileState) :
    tmpPath env input expected s = tmpPathBody (saveTemp env input expected) s := by
  rw [tmpPath]
  unfold tmpPathBody
  simp only [dite_eq_ite]

/-- With a valid temporary directory the body of `tmpPath` never makes its call: the
result does not depend on it; the window only gains the entry for an unset language. -/
theorem tmpPathBody_of_valid (s : FileState) (hv : hasValidTmpDir s = true) :
    ∃ p s', (∀ call, tmpPathBody call s = some (p, s')) ∧ s'.tmpDir = s.tmpDir ∧
      FileFrame ["Temp Saver"] s s' := by
  obtain ⟨d, hd⟩ : ∃ d, s.tmpDir = some d := by
    unfold hasValidTmpDir at hv
    cases h : s.tmpDir with
    | none => simp [h] at hv
    | some d => exact ⟨d, rfl⟩
  unfold tmpPathBody
  by_cases hu : isUntitled s = true
  · simp only [hu, hv, Bool.not_true, Bool.false_eq_true, Bool.true_eq_false, if_false, hd]
    split_ifs
    · exact ⟨_, _, fun _ => rfl, hd, FileFrame.refl _ _⟩
    · exact ⟨_, _, fun _ => rfl, hd, FileFrame.refl _ _⟩
    · exact ⟨_, _, fun _ => rfl, hd, FileFrame.refl _ _⟩
    · exact ⟨_, _, fun _ => rfl, hd, fileFrame_logMessage _ _ _ _ _ (by simp)⟩
  · simp only [hu, Bool.not_false, if_true]
    exact ⟨_, _, fun _ => rfl, rfl, FileFrame.refl _ _⟩

/-- The body of `saveTemp` around a `tmpPath` that is itself a body around any call `c0`:
it returns, the result does not depend on `c0`, language, file path and settings are kept,
and a successful return on an untitled file leaves a valid temporary directory. -/
theorem saveTempBody_spec (heads : List String) (env : Env)
    (input expected : Fin 3 → QString) (head : String) (s : FileState)
    (h1 : head ∈ heads) (hF : "Formatter" ∈ heads) (hT : "Tests" ∈ heads)
    (hS : "Temp Saver" ∈ heads) :
    ∃ b s', (∀ c0, saveTempBody (tmpPathBody c0) env input expected head s = some (b, s')) ∧
      FileFrame heads s s' ∧
      (isUntitled s = true → b = true → hasValidTmpDir s' = true) := by
  have hsf := fileFrame_saveFile heads env input expected head s h1 hF hT
  have hun := saveFile_untitled env input expected head s
  unfold saveTempBody
  generalize saveFile env input expected .IgnoreUntitled head s = r at hsf hun
  obtain ⟨b0, t⟩ := r
  cases b0 with
  | true =>
    refine ⟨true, t, fun _ => by simp, hsf, fun hu _ => ?_⟩
    exact absurd (hun hu) (by simp)
  | false =>
    simp only [Bool.not_false, if_true]
    by_cases hv : hasValidTmpDir { t.step with tmpDir := some (env.newTmpDir t.clock) } = false
    · simp only [if_pos hv]
      refine ⟨false, _, fun _ => rfl, ?_, fun _ h => absurd h (by simp)⟩
      have hmid : FileFrame heads t { t.step with tmpDir := some (env.newTmpDir t.clock) } :=
        ⟨rfl, rfl, rfl, [], by simp [FileState.step], by simp⟩
      exact hsf.trans (hmid.trans (fileFrame_logMessage heads _ _ _ _ h1))
    · simp only [if_neg hv]
      simp only [Bool.not_eq_false] at hv
      obtain ⟨p, s2, h2, h3, h4⟩ := tmpPathBody_of_valid _ hv
      have h4' : FileFrame heads { t.step with tmpDir := some (env.newTmpDir t.clock) } s2 :=
        h4.mono (by simpa using hS)
      have hpre : FileFrame heads s { t.step with tmpDir := some (env.newTmpDir t.clock) } :=
        hsf.trans ⟨rfl, rfl, rfl, [], by simp [FileState.step], by simp⟩
      have hval : hasValidTmpDir s2.step = true := by
        unfold hasValidTmpDir at hv ⊢
        simp only [FileState.step, h3]
        exact hv
      by_cases hw : env.writeOk s2.clock = true
      · refine ⟨true, s2.step, fun c0 => ?_, ?_, fun _ _ => hval⟩
        · rw [h2 c0]; simp [hw]
        · exact hpre.trans (h4'.trans (fileFrame_step heads s2))
      · simp only [Bool.not_eq_true] at hw
        refine ⟨false, s2.step.logMessage .error head ("Failed to save to " ++ toStdString p),
          fun c0 => ?_, ?_, fun _ h => absurd h (by simp)⟩
        · rw [h2 c0]; simp only [hw, Bool.not_false, if_true]
        · exact hpre.trans (h4'.trans ((fileFrame_step heads s2).trans
            (fileFrame_logMessage heads _ _ _ _ h1)))

/-- The method `saveTemp` makes at most one nested call: it is its body around the body of
`tmpPath`, whatever that body would call. -/
theorem saveTemp_eq_depth_one (env : Env) (input expected : Fin 3 → QString) (head : String)
    (s : FileState)
    (c0 : String → FileState → Option (Bool × FileState)) :
    saveTemp env input expected head s =
      saveTempBody (tmpPathBody c0) env input expected head s := by
  obtain ⟨b, s', h, _⟩ := saveTempBody_spec [head, "Formatter", "Tests", "Temp Saver"] env
    input expected head s (by simp) (by simp) (by simp) (by simp)
  have hfun : tmpPath env input expected = tmpPathBody (saveTemp env input expected) := by
    funext t
    exact tmpPath_eq_body env input expected t
  rw [saveTemp_eq_body, hfun, h, h]

/-- The method `tmpPath` makes at most two nested calls: it is its body around the body of
`saveTemp` around the body of `tmpPath`, and that innermost body makes no call. -/
theorem tmpPath_eq_depth_two (env : Env) (input expected : Fin 3 → QString) (s : FileState) :
    tmpPath env input expected s =
      tmpPathBody (saveTempBody (tmpPathBody noCall) env input expected) s := by
  have hfun : saveTemp env input expected =
      saveTempBody (tmpPathBody noCall) env input expected := by
    funext head t
    exact saveTemp_eq_depth_one env input expected head t noCall
  rw [tmpPath_eq_body, hfun]

/-- What `tmpPath` returns: the file path of a titled file; for an untitled file the empty
text or the path of `sol.cpp`, `sol.java` or `sol.py`, according to the language, in a valid
temporary directory.  Language, file path and settings are kept. -/
theorem tmpPath_spec (env : Env) (input expected : Fin 3 → QString) (s : FileState) :
    ∃ p s', tmpPath env input expected s = some (p, s') ∧
      FileFrame ["Temp Saver", "Formatter", "Tests"] s s' ∧
      (isUntitled s = false → p = s.filePath ∧ s' = s) ∧
      (isUntitled s = true → p = [] ∨
        ∃ d, s'.tmpDir = some d ∧ d.valid = true ∧
          ((s.language = qs "Cpp" ∧ p = d.filePath (qs "sol.cpp")) ∨
           (s.language = qs "Java" ∧ p = d.filePath (qs "sol.java")) ∨
           (s.language = qs "Python" ∧ p = d.filePath (qs "sol.py")))) := by
  rw [tmpPath_eq_depth_two]
  by_cases hu : isUntitled s = true
  · -- the state `s1` in which the name is chosen, and whether the directory is usable
    have hsaved : ∃ b s1,
        (if hasValidTmpDir s = false then
          saveTempBody (tmpPathBody noCall) env input expected "Temp Saver" s
        else some (true, s)) = some (b, s1) ∧
        FileFrame ["Temp Saver", "Formatter", "Tests"] s s1 ∧
        (b = true → hasValidTmpDir s1 = true) := by
      by_cases hv : hasValidTmpDir s = false
      · obtain ⟨b, s1, h1, h2, h3⟩ := saveTempBody_spec ["Temp Saver", "Formatter", "Tests"]
          env input expected "Temp Saver" s (by simp) (by simp) (by simp) (by simp)
        exact ⟨b, s1, by rw [if_pos hv]; exact h1 noCall, h2, h3 hu⟩
      · exact ⟨true, s, by rw [if_neg hv], FileFrame.refl _ _, fun _ => by simpa using hv⟩
    generalize saveTempBody (tmpPathBody noCall) env input expected = call at hsaved ⊢
    obtain ⟨b, s1, h1, h2, h3⟩ := hsaved
    unfold tmpPathBody
    simp only [hu, Bool.not_true, Bool.false_eq_true, if_false, h1]
    cases b with
    | false =>
      exact ⟨[], s1, rfl, h2, fun h => by simp at h, fun _ => Or.inl rfl⟩
    | true =>
      have hv1 := h3 rfl
      obtain ⟨d, hd, hdv⟩ : ∃ d, s1.tmpDir = some d ∧ d.valid = true := by
        unfold hasValidTmpDir at hv1
        cases h : s1.tmpDir with
        | none => simp [h] at hv1
        | some d => exact ⟨d, rfl, by simpa [h] using hv1⟩
      have hu1 : isUntitled s1 = true := by
        unfold isUntitled at hu ⊢
        rw [h2.2.1]; exact hu
      have hl : s1.language = s.language := h2.1
      simp only [hu1, Bool.not_true, Bool.false_eq_true, if_false, hd, hl]
      split_ifs with c1 c2 c3
      · exact ⟨_, _, rfl, h2, fun h => by simp at h,
          fun _ => Or.inr ⟨d, hd, hdv, Or.inl ⟨c1, rfl⟩⟩⟩
      · exact ⟨_, _, rfl, h2, fun h => by simp at h,
          fun _ => Or.inr ⟨d, hd, hdv, Or.inr (Or.inl ⟨c2, rfl⟩)⟩⟩
      · exact ⟨_, _, rfl, h2, fun h => by simp at h,
          fun _ => Or.inr ⟨d, hd, hdv, Or.inr (Or.inr ⟨c3, rfl⟩)⟩⟩
      · exact ⟨[], _, rfl, h2.trans (fileFrame_logMessage _ _ _ _ _ (by simp)),
          fun h => by simp at h, fun _ => Or.inl rfl⟩
  · simp only [Bool.not_eq_true] at hu
    generalize saveTempBody (tmpPathBody noCall) env input expected = call
    unfold tmpPathBody
    simp only [hu, Bool.not_false, if_true]
    exact ⟨_, _, rfl, FileFrame.refl _ _, fun _ => ⟨rfl, rfl⟩, fun h => by simp at h⟩

/-! ## Auxiliary lemmas: handles and heap -/

/-- Under the ownership invariant `killProcesses` empties the heap: every live object is
deleted through the handle that points to it. -/
theorem liveAfterKill_of_inv (s : MainWindow) (h : HandlesOwnLive s) : liveAfterKill s = [] := by
  obtain ⟨hperm, _, _, _, _⟩ := h
  unfold liveAfterKill
  simp only [List.filter_filter]
  rw [List.filter_eq_nil_iff]
  intro o ho
  have hmem : o ∈ handleObjs s := hperm.subset ho
  simp only [handleObjs, List.mem_append, Option.mem_toList, Option.mem_def,
    Option.map_eq_some'] at hmem
  simp only [Bool.and_eq_true, decide_eq_true_eq, not_and]
  rcases hmem with (((⟨c, hc, rfl⟩ | ⟨r, hr, rfl⟩) | ⟨r, hr, rfl⟩) | ⟨r, hr, rfl⟩) | ⟨r, hr, rfl⟩
  · intro _ _ _ _ habs
    exact habs (by simp [hc, Compiler.obj, Obj.addr])
  · intro _ _ _ habs
    exact absurd (by simp [hr, Runner.obj, Obj.addr]) habs
  · intro _ _ habs
    exact absurd (by simp [hr, Runner.obj, Obj.addr]) habs
  · intro _ habs
    exact absurd (by simp [hr, Runner.obj, Obj.addr]) habs
  · intro habs
    exact absurd (by simp [hr, Runner.obj, Obj.addr]) habs

/-- A window without live objects and with null handles satisfies the ownership
invariant. -/
theorem inv_of_empty (s : MainWindow) (hc : s.compiler = none) (hr : s.runner = fun _ => none)
    (hd : s.detachedRunner = none) (hl : s.live = []) : HandlesOwnLive s := by
  refine ⟨?_, ?_, ?_, ?_, ?_⟩
  · simp [handleObjs, hc, hr, hd, hl]
  · simp [hl]
  · simp [hl]
  · intro i r h; simp [hr] at h
  · intro r h; simp [hd] at h

/-- One round of the loop of `run` in full: a blank slot is skipped and nothing changes; for
any other slot one runner is created at the next free address, put on the heap and
started; no other handle and no slot text or verdict changes. -/
theorem runStep_spec (env : Env) (command args : QString) (isRun : Bool) (s : MainWindow)
    (i : Fin 3) :
    ∃ b s', runStep env command args (some (isRun, s)) i = some (b, s') ∧
      s'.verdict = s.verdict ∧ s'.output = s.output ∧ s'.input = s.input ∧
      s'.expected = s.expected ∧ s'.compiler = s.compiler ∧
      s'.detachedRunner = s.detachedRunner ∧ s'.afterCompile = s.afterCompile ∧
      FileFrame ["Temp Saver", "Formatter", "Tests"] s.toFileState s'.toFileState ∧
      (∀ j, j ≠ i → s'.runner j = s.runner j) ∧
      ((trimmed (s.input i)).isEmpty = true →
        b = isRun ∧ s'.runner i = s.runner i ∧ s'.live = s.live ∧
          s'.allocated = s.allocated ∧ s'.log = s.log) ∧
      ((trimmed (s.input i)).isEmpty = false →
        b = true ∧ (∃ job, s'.runner i = some ⟨s.allocated, i.val, some job⟩) ∧
          s'.live = Obj.runner s.allocated i.val :: s.live ∧
          s'.allocated = s.allocated + 1) := by
  unfold runStep
  by_cases hb : (trimmed (s.input i)).isEmpty = true
  · simp only [hb, Bool.not_true, Bool.false_eq_true, if_false]
    exact ⟨_, _, rfl, rfl, rfl, rfl, rfl, rfl, rfl, rfl, FileFrame.refl _ _, fun _ _ => rfl,
      fun _ => ⟨rfl, rfl, rfl, rfl, rfl⟩, fun h => by simp at h⟩
  · simp only [Bool.not_eq_true] at hb
    simp only [hb, Bool.not_false, if_true]
    obtain ⟨p, f, hf, hframe, _, _⟩ := tmpPath_spec env s.input s.expected s.toFileState
    simp only [hf]
    refine ⟨_, _, rfl, rfl, rfl, rfl, rfl, rfl, rfl, rfl, hframe, fun j hj => ?_,
      fun h => by simp at h,
      fun _ => ⟨rfl, ⟨RunnerJob.run p f.language command args (s.input i) f.data.timeLimit, ?_⟩,
        rfl, rfl⟩⟩
    · simp [Function.update, hj]
    · simp [Function.update]

/-- The ownership invariant survives the creation of the runner of a slot whose handle was
null: the new object sits at a fresh address and is referenced by that handle only. -/
theorem inv_new_runner (s s' : MainWindow) (i : Fin 3) (job : Option RunnerJob)
    (hinv : HandlesOwnLive s) (hnone : s.runner i = none)
    (hr : s'.runner i = some ⟨s.allocated, i.val, job⟩)
    (hothers : ∀ j, j ≠ i → s'.runner j = s.runner j) (hc : s'.compiler = s.compiler)
    (hd : s'.detachedRunner = s.detachedRunner)
    (hl : s'.live = Obj.runner s.allocated i.val :: s.live)
    (ha : s'.allocated = s.allocated + 1) : HandlesOwnLive s' := by
  obtain ⟨hperm, hnodup, hbound, hidx, hdet⟩ := hinv
  refine ⟨?_, ?_, ?_, ?_, ?_⟩
  · rw [List.perm_iff_count]
    intro o
    have hcount := List.perm_iff_count.mp hperm o
    rw [hl, List.count_cons, hcount]
    fin_cases i
    · have h1 := hothers 1 (by decide)
      have h2 := hothers 2 (by decide)
      simp only [Fin.zero_eta] at hr hnone
      simp only [handleObjs, hc, hd, hr, h1, h2, hnone, List.count_append, Option.map_some',
        Option.map_none', Option.toList_some, Option.toList_none, List.count_nil,
        List.count_singleton, Runner.obj]
      simp only [beq_iff_eq, Fin.isValue, Fin.val_zero]
      omega
    · have h0 := hothers 0 (by decide)
      have h2 := hothers 2 (by decide)
      simp only [Fin.mk_one] at hr hnone
      simp only [handleObjs, hc, hd, hr, h0, h2, hnone, List.count_append, Option.map_some',
        Option.map_none', Option.toList_some, Option.toList_none, List.count_nil,
        List.count_singleton, Runner.obj]
      simp only [beq_iff_eq, Fin.isValue, Fin.val_one]
      omega
    · have h0 := hothers 0 (by decide)
      have h1 := hothers 1 (by decide)
      simp only [Fin.reduceFinMk] at hr hnone
      simp only [handleObjs, hc, hd, hr, h0, h1, hnone, List.count_append, Option.map_some',
        Option.map_none', Option.toList_some, Option.toList_none, List.count_nil,
        List.count_singleton, Runner.obj]
      simp only [beq_iff_eq, Fin.isValue, Fin.val_two]
      omega
  · rw [hl, List.map_cons, List.nodup_cons]
    refine ⟨?_, hnodup⟩
    intro hmem
    obtain ⟨o, ho, hoa⟩ := List.mem_map.mp hmem
    have hlt := hbound o ho
    have hnew : (Obj.runner s.allocated i.val).addr = s.allocated := rfl
    rw [hnew] at hoa
    omega
  · intro o ho
    rw [hl] at ho
    rw [ha]
    rcases List.mem_cons.mp ho with h | h
    · subst h; simp [Obj.addr]
    · exact Nat.lt_succ_of_lt (hbound o h)
  · intro j r hj
    by_cases hji : j = i
    · subst hji
      rw [hr] at hj
      cases hj
      rfl
    · rw [hothers j hji] at hj
      exact hidx j r hj
  · intro r hr'
    rw [hd] at hr'
    exact hdet r hr'

/-- The ownership invariant only reads the handles, the heap and the allocation counter. -/
theorem inv_congr (s s' : MainWindow) (hinv : HandlesOwnLive s) (hc : s'.compiler = s.compiler)
    (hr : s'.runner = s.runner) (hd : s'.detachedRunner = s.detachedRunner)
    (hl : s'.live = s.live) (ha : s'.allocated = s.allocated) : HandlesOwnLive s' := by
  unfold HandlesOwnLive handleObjs at *
  rw [hc, hr, hd, hl, ha]
  exact hinv

/-- One round of the loop of `run` keeps the ownership invariant when the handle of its slot
is null on entry. -/
theorem runStep_inv (env : Env) (command args : QString) (isRun b : Bool)
    (s s' : MainWindow) (i : Fin 3) (hinv : HandlesOwnLive s) (hnone : s.runner i = none)
    (hstep : runStep env command args (some (isRun, s)) i = some (b, s')) :
    HandlesOwnLive s' := by
  obtain ⟨b0, s0, h0, _, _, _, _, hc, hd, _, _, hothers, hblank, hfull⟩ :=
    runStep_spec env command args isRun s i
  rw [hstep] at h0
  simp only [Option.some.injEq, Prod.mk.injEq] at h0
  obtain ⟨rfl, rfl⟩ := h0
  by_cases hb : (trimmed (s.input i)).isEmpty = true
  · obtain ⟨_, hri, hl, ha, _⟩ := hblank hb
    refine inv_congr s s' hinv hc ?_ hd hl ha
    funext j
    by_cases hj : j = i
    · rw [hj, hri]
    · exact hothers j hj
  · simp only [Bool.not_eq_true] at hb
    obtain ⟨_, ⟨job, hjob⟩, hl, ha⟩ := hfull hb
    exact inv_new_runner s s' i (some job) hinv hnone hjob hothers hc hd hl ha

/-- The method `clearTests` touches the texts and verdicts of the slots only. -/
theorem clearTests_frame (outputOnly : Bool) (s : MainWindow) :
    (clearTests outputOnly s).toFileState = s.toFileState ∧
    (clearTests outputOnly s).compiler = s.compiler ∧
    (clearTests outputOnly s).runner = s.runner ∧
    (clearTests outputOnly s).detachedRunner = s.detachedRunner ∧
    (clearTests outputOnly s).afterCompile = s.afterCompile ∧
    (clearTests outputOnly s).live = s.live ∧
    (clearTests outputOnly s).allocated = s.allocated ∧
    (clearTests outputOnly s).problemURL = s.problemURL ∧
    (clearTests outputOnly s).submitToCodeforces = s.submitToCodeforces := by
  cases outputOnly <;> exact ⟨rfl, rfl, rfl, rfl, rfl, rfl, rfl, rfl, rfl⟩

/-- A property of the three slot indices holds for all of them when it holds for each. -/
theorem fin3_forall (P : Fin 3 → Prop) (p0 : P 0) (p1 : P 1) (p2 : P 2) : ∀ i, P i := by
  intro i
  fin_cases i
  · exact p0
  · exact p1
  · exact p2

/-- The loop of `run` over the three slots, entered with all runner handles null: it
returns; a runner exists afterwards exactly for the slots whose input is not blank; the
flag `isRun` is false exactly when all inputs are blank, and then the logger is as before;
the ownership invariant is kept. -/
theorem runLoop_spec (env : Env) (command args : QString) (c : MainWindow)
    (hr : c.runner = fun _ => none) :
    ∃ b s', ([0, 1, 2] : List (Fin 3)).foldl (runStep env command args) (some (false, c)) =
        some (b, s') ∧
      s'.verdict = c.verdict ∧ s'.output = c.output ∧ s'.input = c.input ∧
      s'.expected = c.expected ∧ s'.compiler = c.compiler ∧
      s'.detachedRunner = c.detachedRunner ∧ s'.afterCompile = c.afterCompile ∧
      FileFrame ["Temp Saver", "Formatter", "Tests"] c.toFileState s'.toFileState ∧
      (∀ i, (trimmed (c.input i)).isEmpty = true → s'.runner i = none) ∧
      (∀ i, (trimmed (c.input i)).isEmpty = false → ∃ r, s'.runner i = some r) ∧
      (b = false ↔ ∀ i, (trimmed (c.input i)).isEmpty = true) ∧
      (b = false → s'.log = c.log) ∧
      (HandlesOwnLive c → HandlesOwnLive s') := by
  obtain ⟨b0, s0, e0, v0, o0, i0, x0, c0, d0, a0, f0, r0, k0, n0⟩ :=
    runStep_spec env command args false c 0
  obtain ⟨b1, s1, e1, v1, o1, i1, x1, c1, d1, a1, f1, r1, k1, n1⟩ :=
    runStep_spec env command args b0 s0 1
  obtain ⟨b2, s2, e2, v2, o2, i2, x2, c2, d2, a2, f2, r2, k2, n2⟩ :=
    runStep_spec env command args b1 s1 2
  rw [i0] at k1 n1
  rw [i1, i0] at k2 n2
  have hc0 : c.runner 0 = none := by rw [hr]
  have hc1 : c.runner 1 = none := by rw [hr]
  have hc2 : c.runner 2 = none := by rw [hr]
  have h10 : s2.runner 0 = s0.runner 0 := by
    rw [r2 0 (by decide), r1 0 (by decide)]
  have h11 : s2.runner 1 = s1.runner 1 := r2 1 (by decide)
  have hs01 : s0.runner 1 = none := by rw [r0 1 (by decide), hc1]
  have hs12 : s1.runner 2 = none := by rw [r1 2 (by decide), r0 2 (by decide), hc2]
  refine ⟨b2, s2, by simp only [List.foldl, e0, e1, e2], by rw [v2, v1, v0],
    by rw [o2, o1, o0], by rw [i2, i1, i0], by rw [x2, x1, x0], by rw [c2, c1, c0],
    by rw [d2, d1, d0], by rw [a2, a1, a0], f0.trans (f1.trans f2), ?_, ?_, ?_, ?_, ?_⟩
  · apply fin3_forall
    · intro hi
      rw [h10, (k0 hi).2.1, hc0]
    · intro hi
      rw [h11, (k1 hi).2.1, hs01]
    · intro hi
      rw [(k2 hi).2.1, hs12]
  · apply fin3_forall
    · intro hi
      obtain ⟨_, ⟨job, hjob⟩, _⟩ := n0 hi
      exact ⟨_, h10.trans hjob⟩
    · intro hi
      obtain ⟨_, ⟨job, hjob⟩, _⟩ := n1 hi
      exact ⟨_, h11.trans hjob⟩
    · intro hi
      obtain ⟨_, ⟨job, hjob⟩, _⟩ := n2 hi
      exact ⟨_, hjob⟩
  · constructor
    · intro hb
      cases h2 : (trimmed (c.input 2)).isEmpty with
      | false => exact absurd ((n2 h2).1.symm.trans hb) (by simp)
      | true =>
        have hb1 : b1 = false := (k2 h2).1.symm.trans hb
        cases h1 : (trimmed (c.input 1)).isEmpty with
        | false => exact absurd ((n1 h1).1.symm.trans hb1) (by simp)
        | true =>
          have hb0 : b0 = false := (k1 h1).1.symm.trans hb1
          cases h0 : (trimmed (c.input 0)).isEmpty with
          | false => exact absurd ((n0 h0).1.symm.trans hb0) (by simp)
          | true => exact fin3_forall _ h0 h1 h2
    · intro hall
      rw [(k2 (hall 2)).1, (k1 (hall 1)).1, (k0 (hall 0)).1]
  · intro hb
    have hall : ∀ i, (trimmed (c.input i)).isEmpty = true := by
      cases h2 : (trimmed (c.input 2)).isEmpty with
      | false => exact absurd ((n2 h2).1.symm.trans hb) (by simp)
      | true =>
        have hb1 : b1 = false := (k2 h2).1.symm.trans hb
        cases h1 : (trimmed (c.input 1)).isEmpty with
        | false => exact absurd ((n1 h1).1.symm.trans hb1) (by simp)
        | true =>
          have hb0 : b0 = false := (k1 h1).1.symm.trans hb1
          cases h0 : (trimmed (c.input 0)).isEmpty with
          | false => exact absurd ((n0 h0).1.symm.trans hb0) (by simp)
          | true => exact fin3_forall _ h0 h1 h2
    rw [(k2 (hall 2)).2.2.2.2, (k1 (hall 1)).2.2.2.2, (k0 (hall 0)).2.2.2.2]
  · intro hinv
    have inv0 := runStep_inv env command args false b0 c s0 0 hinv hc0 e0
    have inv1 := runStep_inv env command args b0 b1 s0 s1 1 inv0 hs01 e1
    exact runStep_inv env command args b1 b2 s1 s2 2 inv1 hs12 e2

/-- The state in which `run` enters its language dispatch: handles null, results cleared,
everything else as before. -/
theorem run_prologue (s : MainWindow) :
    (clearTests true (killProcesses s)).toFileState = s.toFileState ∧
    (clearTests true (killProcesses s)).compiler = none ∧
    (clearTests true (killProcesses s)).runner = (fun _ => none) ∧
    (clearTests true (killProcesses s)).detachedRunner = none ∧
    (clearTests true (killProcesses s)).afterCompile = s.afterCompile ∧
    (clearTests true (killProcesses s)).live = liveAfterKill s ∧
    (clearTests true (killProcesses s)).allocated = s.allocated ∧
    (clearTests true (killProcesses s)).input = s.input ∧
    (clearTests true (killProcesses s)).expected = s.expected ∧
    (∀ j, (clearTests true (killProcesses s)).verdict j = verdictLabel .UNKNOWN) ∧
    (∀ j, (clearTests true (killProcesses s)).output j = []) := by
  rw [killProcesses_eq]
  obtain ⟨hv, ho, hi, he⟩ := clearTests_outputOnly
    { s with compiler := none, runner := fun _ => none, detachedRunner := none,
             live := liveAfterKill s }
  obtain ⟨f1, f2, f3, f4, f5, f6, f7, _, _⟩ := clearTests_frame true
    { s with compiler := none, runner := fun _ => none, detachedRunner := none,
             live := liveAfterKill s }
  exact ⟨f1, f2, f3, f4, f5, f6, f7, hi, he, hv, ho⟩

/-- The method `run` in full.  It always returns with the compiler and detached handles
null, results cleared and test data kept.  For a supported language a runner exists
afterwards exactly for the slots whose input is not blank, and the warning that there is
nothing to run is among the entries added to the logger exactly when all inputs are blank.
For any other language no runner exists and no object is created.  The ownership invariant
is kept. -/
theorem run_spec (env : Env) (s : MainWindow) :
    ∃ s', run env s = some s' ∧
      s'.compiler = none ∧ s'.detachedRunner = none ∧ s'.afterCompile = s.afterCompile ∧
      s'.input = s.input ∧ s'.expected = s.expected ∧
      (∀ j, s'.verdict j = verdictLabel .UNKNOWN) ∧ (∀ j, s'.output j = []) ∧
      ((s.language = qs "Cpp" ∨ s.language = qs "Java" ∨ s.language = qs "Python") →
        (∀ i, (trimmed (s.input i)).isEmpty = true → s'.runner i = none) ∧
        (∀ i, (trimmed (s.input i)).isEmpty = false → ∃ r, s'.runner i = some r) ∧
        ∃ added, s'.log = s.log ++ added ∧
          ((⟨.warn, "Runner", "All inputs are empty, nothing to run"⟩ : LogEntry) ∈ added ↔
            ∀ i, (trimmed (s.input i)).isEmpty = true)) ∧
      (¬ (s.language = qs "Cpp" ∨ s.language = qs "Java" ∨ s.language = qs "Python") →
        s'.runner = (fun _ => none) ∧ s'.live = liveAfterKill s ∧
          s'.allocated = s.allocated) ∧
      (HandlesOwnLive s → HandlesOwnLive s') := by
  obtain ⟨pf, pc, pr, pd, pa, pl, pn, pi, pe, pv, po⟩ := run_prologue s
  have plang : (clearTests true (killProcesses s)).language = s.language := by
    show (clearTests true (killProcesses s)).toFileState.language = _
    rw [pf]
  have plog : (clearTests true (killProcesses s)).log = s.log := by
    show (clearTests true (killProcesses s)).toFileState.log = _
    rw [pf]
  have pinv : HandlesOwnLive s → HandlesOwnLive (clearTests true (killProcesses s)) := by
    intro hinv
    exact inv_of_empty _ pc pr pd (by rw [pl, liveAfterKill_of_inv s hinv])
  unfold run
  simp only []
  generalize clearTests true (killProcesses s) = c at pf pc pr pd pa pl pn pi pe pv po plang plog pinv
  by_cases hlang : s.language = qs "Cpp" ∨ s.language = qs "Java" ∨ s.language = qs "Python"
  · obtain ⟨command, args, hdisp⟩ : ∃ command args,
        (if c.language = qs "Cpp" then some (([] : QString), c.data.runtimeArgumentsCpp)
        else if c.language = qs "Java" then
          some (c.data.runCommandJava, c.data.runtimeArgumentsJava)
        else if c.language = qs "Python" then
          some (c.data.runCommandPython, c.data.runtimeArgumentsPython)
        else none) = some (command, args) := by
      rw [plang]
      rcases hlang with h | h | h
      · exact ⟨_, _, by rw [if_pos h]⟩
      · by_cases h1 : s.language = qs "Cpp"
        · exact ⟨_, _, by rw [if_pos h1]⟩
        · exact ⟨_, _, by rw [if_neg h1, if_pos h]⟩
      · by_cases h1 : s.language = qs "Cpp"
        · exact ⟨_, _, by rw [if_pos h1]⟩
        · by_cases h2 : s.language = qs "Java"
          · exact ⟨_, _, by rw [if_neg h1, if_pos h2]⟩
          · exact ⟨_, _, by rw [if_neg h1, if_neg h2, if_pos h]⟩
    rw [hdisp]
    simp only []
    obtain ⟨b, s2, hl, lv, lo, li, le, lc, ld, la, lf, lblank, lfull, lb, llog, linv⟩ :=
      runLoop_spec env command args c pr
    rw [hl]
    simp only []
    rw [pi] at lblank lfull lb
    obtain ⟨_, _, _, added, hadd, hheads⟩ := lf
    have hlog2 : s2.log = s.log ++ added := by rw [← plog]; exact hadd
    cases b with
    | false =>
      have hall := lb.mp rfl
      simp only [Bool.not_false, if_true]
      refine ⟨_, rfl, by rw [← pc, ← lc]; rfl, by rw [← pd, ← ld]; rfl,
        by rw [← pa, ← la]; rfl, by rw [← pi, ← li]; rfl, by rw [← pe, ← le]; rfl,
        fun j => by rw [← pv j, ← lv]; rfl, fun j => by rw [← po j, ← lo]; rfl,
        fun _ => ⟨lblank, lfull, [⟨.warn, "Runner", "All inputs are empty, nothing to run"⟩],
          ?_, ?_⟩, fun h => absurd hlang h, fun hinv => ?_⟩
      · show s2.log ++ _ = _
        rw [llog rfl, plog]
      · simp only [List.mem_singleton, true_iff]
        exact hall
      · exact inv_congr s2 _ (linv (pinv hinv)) rfl rfl rfl rfl rfl
    | true =>
      simp only [Bool.not_true, Bool.false_eq_true, if_false]
      refine ⟨s2, rfl, by rw [lc, pc], by rw [ld, pd], by rw [la, pa], by rw [li, pi],
        by rw [le, pe], fun j => by rw [lv]; exact pv j, fun j => by rw [lo]; exact po j,
        fun _ => ⟨lblank, lfull, added, hlog2, ?_⟩, fun h => absurd hlang h,
        fun hinv => linv (pinv hinv)⟩
      constructor
      · intro hmem
        have := hheads _ hmem
        simp at this
      · intro hall
        have := lb.mpr hall
        simp at this
  · have hdisp : (if c.language = qs "Cpp" then some (([] : QString), c.data.runtimeArgumentsCpp)
        else if c.language = qs "Java" then
          some (c.data.runCommandJava, c.data.runtimeArgumentsJava)
        else if c.language = qs "Python" then
          some (c.data.runCommandPython, c.data.runtimeArgumentsPython)
        else none) = none := by
      rw [plang]
      simp only [not_or] at hlang
      rw [if_neg hlang.1, if_neg hlang.2.1, if_neg hlang.2.2]
    rw [hdisp]
    simp only []
    refine ⟨_, rfl, pc, pd, pa, pi, pe, pv, po, fun h => absurd h hlang,
      fun _ => ⟨pr, pl, pn⟩, fun hinv => ?_⟩
    exact inv_congr c _ (pinv hinv) rfl rfl rfl rfl rfl

/-- The method `saveTemp` always returns, keeps language, file path and settings, and logs
only under its own head and those of the formatter, the tests and `tmpPath`. -/
theorem saveTemp_spec (heads : List String) (env : Env) (input expected : Fin 3 → QString)
    (head : String) (s : FileState) (h1 : head ∈ heads) (hF : "Formatter" ∈ heads)
    (hT : "Tests" ∈ heads) (hS : "Temp Saver" ∈ heads) :
    ∃ b s', saveTemp env input expected head s = some (b, s') ∧ FileFrame heads s s' := by
  obtain ⟨b, s', h, hf, _⟩ := saveTempBody_spec heads env input expected head s h1 hF hT hS
  exact ⟨b, s', by rw [saveTemp_eq_depth_one env input expected head s noCall]; exact h noCall,
    hf⟩

/-- A window whose only live object is the compiler behind the compiler handle satisfies
the ownership invariant. -/
theorem inv_single_compiler (s : MainWindow) (c : Compiler) (hc : s.compiler = some c)
    (hr : s.runner = fun _ => none) (hd : s.detachedRunner = none)
    (hl : s.live = [Obj.compiler c.addr]) (ha : c.addr < s.allocated) : HandlesOwnLive s := by
  refine ⟨?_, ?_, ?_, ?_, ?_⟩
  · simp [handleObjs, hc, hr, hd, hl, Compiler.obj]
  · simp [hl]
  · intro o ho
    rw [hl] at ho
    simp only [List.mem_singleton] at ho
    subst ho
    exact ha
  · intro i r h; simp [hr] at h
  · intro r h; simp [hd] at h

/-- A window whose only live object is the detached runner behind its handle satisfies the
ownership invariant. -/
theorem inv_single_detached (s : MainWindow) (r : Runner) (hc : s.compiler = none)
    (hr : s.runner = fun _ => none) (hd : s.detachedRunner = some r) (hi : r.index = -1)
    (hl : s.live = [Obj.runner r.addr (-1)]) (ha : r.addr < s.allocated) :
    HandlesOwnLive s := by
  refine ⟨?_, ?_, ?_, ?_, ?_⟩
  · simp [handleObjs, hc, hr, hd, hl, Runner.obj, hi]
  · simp [hl]
  · intro o ho
    rw [hl] at ho
    simp only [List.mem_singleton] at ho
    subst ho
    exact ha
  · intro i r' h; simp [hr] at h
  · intro r' h
    rw [hd] at h
    cases h
    exact hi

/-- The method `compile` in full.  It always returns; afterwards the compiler handle points
to a new compiler at the next free address, the runner handles are null, the heap holds
the new compiler and what `killProcesses` left, and no slot has changed.  For a language
that is neither `Cpp` nor `Java` the compiler is not started. -/
theorem compile_spec (env : Env) (s : MainWindow) :
    ∃ s' c, compile env s = some s' ∧ s'.compiler = some c ∧ c.addr = s.allocated ∧
      s'.runner = (fun _ => none) ∧ s'.detachedRunner = none ∧
      s'.afterCompile = s.afterCompile ∧
      s'.input = s.input ∧ s'.expected = s.expected ∧ s'.output = s.output ∧
      s'.verdict = s.verdict ∧
      s'.live = Obj.compiler s.allocated :: liveAfterKill s ∧
      s'.allocated = s.allocated + 1 ∧
      FileFrame ["Compiler", "Formatter", "Tests", "Temp Saver"] s.toFileState s'.toFileState ∧
      (¬ (s.language = qs "Cpp" ∨ s.language = qs "Java") → c.started = none) := by
  unfold compile
  rw [killProcesses_eq]
  simp only []
  obtain ⟨b, f, hsave, hframe⟩ := saveTemp_spec ["Compiler", "Formatter", "Tests", "Temp Saver"]
    env s.input s.expected "Compiler" s.toFileState (by simp) (by simp) (by simp) (by simp)
  rw [hsave]
  simp only []
  cases b with
  | false =>
    simp only [Bool.false_eq_true, if_false]
    exact ⟨_, ⟨s.allocated, none⟩, rfl, rfl, rfl, rfl, rfl, rfl, rfl, rfl, rfl, rfl, rfl, rfl,
      hframe, fun _ => rfl⟩
  | true =>
    simp only [if_true]
    have hlang : f.language = s.language := hframe.1
    by_cases hcpp : f.language = qs "Cpp"
    · simp only [hcpp, if_true]
      obtain ⟨p, f2, hp, hf2, _⟩ := tmpPath_spec env s.input s.expected f
      rw [hp]
      simp only []
      exact ⟨_, ⟨s.allocated, some (p, f.data.compileCommandCpp, f2.language)⟩, rfl, rfl, rfl,
        rfl, rfl, rfl, rfl, rfl, rfl, rfl, rfl, rfl,
        hframe.trans (hf2.mono (by simp)), fun h => absurd (Or.inl (hlang ▸ hcpp)) h⟩
    · by_cases hjava : f.language = qs "Java"
      · simp only [hcpp, hjava, if_true, if_false]
        obtain ⟨p, f2, hp, hf2, _⟩ := tmpPath_spec env s.input s.expected f
        rw [hp]
        simp only []
        exact ⟨_, ⟨s.allocated, some (p, f.data.compileCommandJava, f2.language)⟩, rfl, rfl,
          rfl, rfl, rfl, rfl, rfl, rfl, rfl, rfl, rfl, rfl,
          hframe.trans (hf2.mono (by simp)), fun h => absurd (Or.inr (hlang ▸ hjava)) h⟩
      · simp only [hcpp, hjava, if_false]
        exact ⟨_, ⟨s.allocated, none⟩, rfl, rfl, rfl, rfl, rfl, rfl, rfl, rfl, rfl, rfl, rfl,
          rfl, hframe, fun _ => rfl⟩

/-- The method `compile` keeps the ownership invariant. -/
theorem compile_inv (env : Env) (s s' : MainWindow) (hinv : HandlesOwnLive s)
    (h : compile env s = some s') : HandlesOwnLive s' := by
  obtain ⟨s1, c, h1, hc, ha, hr, hd, _, _, _, _, _, hl, hn, _, _⟩ := compile_spec env s
  rw [h] at h1
  cases h1
  refine inv_single_compiler s' c hc hr hd ?_ ?_
  · rw [hl, liveAfterKill_of_inv s hinv, ha]
  · rw [hn, ha]; exact Nat.lt_succ_self _

/-- The method `run` keeps the ownership invariant. -/
theorem run_inv (env : Env) (s s' : MainWindow) (hinv : HandlesOwnLive s)
    (h : run env s = some s') : HandlesOwnLive s' := by
  obtain ⟨s1, h1, _, _, _, _, _, _, _, _, _, hi⟩ := run_spec env s
  rw [h] at h1
  cases h1
  exact hi hinv

/-- The slot `onCompilationFinished` in full.  It always returns and keeps the ownership
invariant.  In its detached branch, with a language that is none of `Cpp`, `Java`,
`Python`, all handles are null afterwards and no object is created. -/
theorem onCompilationFinished_spec (env : Env) (warning : QString) (s : MainWindow) :
    ∃ s', onCompilationFinished env warning s = some s' ∧
      (HandlesOwnLive s → HandlesOwnLive s') ∧
      (s.afterCompile = .RunDetached →
        ¬ (s.language = qs "Cpp" ∨ s.language = qs "Java" ∨ s.language = qs "Python") →
        s'.detachedRunner = none ∧ s'.runner = (fun _ => none) ∧ s'.compiler = none ∧
          s'.live = liveAfterKill s ∧ s'.allocated = s.allocated) := by
  -- the window after the two logging statements
  obtain ⟨t, ht, ta, tc, tr, td, tl, tn, tlang, tin, tex⟩ : ∃ t : MainWindow,
      (if !(trimmed warning).isEmpty then
        (s.logMessage .info "Compiler" "Compilation has finished").logMessage .warn
          "Compile Warnings" (toStdString warning)
      else s.logMessage .info "Compiler" "Compilation has finished") = t ∧
      t.afterCompile = s.afterCompile ∧ t.compiler = s.compiler ∧ t.runner = s.runner ∧
      t.detachedRunner = s.detachedRunner ∧ t.live = s.live ∧ t.allocated = s.allocated ∧
      t.language = s.language ∧ t.input = s.input ∧ t.expected = s.expected := by
    refine ⟨_, rfl, ?_⟩
    split_ifs <;> exact ⟨rfl, rfl, rfl, rfl, rfl, rfl, rfl, rfl, rfl⟩
  have tinv : HandlesOwnLive s → HandlesOwnLive t := fun h => inv_congr s t h tc tr td tl tn
  have tkill : liveAfterKill t = liveAfterKill s := by
    unfold liveAfterKill
    rw [tc, tr, td, tl]
  unfold onCompilationFinished
  simp only [ht]
  by_cases hrun : t.afterCompile = .Run
  · simp only [hrun, if_true]
    obtain ⟨s1, h1, _, _, _, _, _, _, _, _, _, hi⟩ := run_spec env t
    rw [h1]
    refine ⟨_, rfl, fun hinv => ?_, fun h => ?_⟩
    · exact inv_congr s1 _ (hi (tinv hinv)) rfl rfl rfl rfl rfl
    · rw [← ta, hrun] at h
      exact absurd h (by simp)
  · simp only [hrun, if_false]
    by_cases hdet : t.afterCompile = .RunDetached
    · simp only [hdet, if_true]
      rw [killProcesses_eq]
      simp only []
      cases hcmd : runCommandFor t.toFileState with
      | none =>
        have hunsupp : ¬ (s.language = qs "Cpp" ∨ s.language = qs "Java" ∨
            s.language = qs "Python") := by
          intro hl
          rw [← tlang] at hl
          unfold runCommandFor at hcmd
          rcases hl with h | h | h
          · rw [if_pos h] at hcmd; exact absurd hcmd (by simp)
          · by_cases h1 : t.language = qs "Cpp"
            · rw [if_pos h1] at hcmd; exact absurd hcmd (by simp)
            · rw [if_neg h1, if_pos h] at hcmd; exact absurd hcmd (by simp)
          · by_cases h1 : t.language = qs "Cpp"
            · rw [if_pos h1] at hcmd; exact absurd hcmd (by simp)
            · by_cases h2 : t.language = qs "Java"
              · rw [if_neg h1, if_pos h2] at hcmd; exact absurd hcmd (by simp)
              · rw [if_neg h1, if_neg h2, if_pos h] at hcmd; exact absurd hcmd (by simp)
        refine ⟨_, rfl, fun hinv => ?_, fun _ _ => ⟨rfl, rfl, rfl, ?_, ?_⟩⟩
        · exact inv_of_empty _ rfl rfl rfl (liveAfterKill_of_inv t (tinv hinv))
        · exact tkill
        · exact tn
      | some ca =>
        obtain ⟨command, args⟩ := ca
        simp only []
        obtain ⟨p, f, hp, _, _⟩ := tmpPath_spec env t.input t.expected t.toFileState
        rw [hp]
        simp only []
        refine ⟨_, rfl, fun hinv => ?_, fun _ hun => ?_⟩
        · refine inv_single_detached _
            ⟨t.allocated, -1, some (.runDetached p f.language command args)⟩ rfl rfl rfl rfl
            ?_ ?_
          · show Obj.runner t.allocated (-1) :: liveAfterKill t = _
            rw [liveAfterKill_of_inv t (tinv hinv)]
          · exact Nat.lt_succ_self _
        · exfalso
          apply hun
          rw [← tlang]
          unfold runCommandFor at hcmd
          by_cases h1 : t.language = qs "Cpp"
          · exact Or.inl h1
          · by_cases h2 : t.language = qs "Java"
            · exact Or.inr (Or.inl h2)
            · by_cases h3 : t.language = qs "Python"
              · exact Or.inr (Or.inr h3)
              · rw [if_neg h1, if_neg h2, if_neg h3] at hcmd
                exact absurd hcmd (by simp)
    · simp only [hdet, if_false]
      refine ⟨_, rfl, fun hinv => ?_, fun h => ?_⟩
      · exact inv_congr t _ (tinv hinv) rfl rfl rfl rfl rfl
      · rw [← ta] at h
        exact absurd h hdet

/-- A pipeline operation that compiles returns and keeps the ownership invariant. -/
theorem compile_returns_inv (env : Env) (s t : MainWindow) (hc : t.compiler = s.compiler)
    (hr : t.runner = s.runner) (hd : t.detachedRunner = s.detachedRunner)
    (hl : t.live = s.live) (ha : t.allocated = s.allocated) :
    ∃ s', compile env t = some s' ∧ (HandlesOwnLive s → HandlesOwnLive s') := by
  obtain ⟨s', _, h, _⟩ := compile_spec env t
  exact ⟨s', h, fun hinv => compile_inv env t s' (inv_congr s t hinv hc hr hd hl ha) h⟩

/-- Every pipeline operation and event returns and keeps the ownership invariant. -/
theorem step_inv (env : Env) (op : Op) (s : MainWindow) :
    ∃ s', step env op s = some s' ∧ (HandlesOwnLive s → HandlesOwnLive s') := by
  cases op with
  | compileOnly =>
    simp only [step, compileOnly]
    exact compile_returns_inv env s _ rfl rfl rfl rfl rfl
  | runOnly =>
    simp only [step, runOnly]
    obtain ⟨s', h, _⟩ := run_spec env s.logClear
    exact ⟨s', h, fun hinv =>
      run_inv env s.logClear s' (inv_congr s s.logClear hinv rfl rfl rfl rfl rfl) h⟩
  | compileAndRun =>
    simp only [step, compileAndRun]
    exact compile_returns_inv env s _ rfl rfl rfl rfl rfl
  | detachedExecution =>
    simp only [step, detachedExecution]
    exact compile_returns_inv env s _ rfl rfl rfl rfl rfl
  | compilationFinished warning =>
    simp only [step]
    obtain ⟨s', h, hi, _⟩ := onCompilationFinished_spec env warning s
    exact ⟨s', h, hi⟩
  | compilationError error =>
    simp only [step]
    refine ⟨_, rfl, fun hinv => ?_⟩
    unfold onCompilationErrorOccured
    split_ifs
    · exact inv_congr s _ hinv rfl rfl rfl rfl rfl
    · exact inv_congr s _ hinv rfl rfl rfl rfl rfl
  | teardown =>
    simp only [step]
    refine ⟨_, rfl, fun hinv => ?_⟩
    unfold destructor
    rw [killProcesses_eq]
    exact inv_of_empty _ rfl rfl rfl (liveAfterKill_of_inv s hinv)

/-- Every finite sequence of pipeline operations and events returns and keeps the ownership
invariant. -/
theorem runOps_inv (env : Env) (ops : List Op) :
    ∀ s : MainWindow, ∃ s', runOps env ops s = some s' ∧
      (HandlesOwnLive s → HandlesOwnLive s') := by
  induction ops with
  | nil => exact fun s => ⟨s, rfl, id⟩
  | cons op ops ih =>
    intro s
    obtain ⟨s1, h1, hi1⟩ := step_inv env op s
    obtain ⟨s2, h2, hi2⟩ := ih s1
    refine ⟨s2, ?_, fun h => hi2 (hi1 h)⟩
    simp only [runOps, h1]
    exact h2

/-- A handle list entry counts at most once under a filter. -/
theorem length_filter_toList_le (p : Obj → Bool) (o : Option Obj) :
    (o.toList.filter p).length ≤ 1 := by
  cases o with
  | none => simp
  | some x =>
    refine le_trans (List.length_filter_le _ _) ?_
    simp

/-- A handle list entry that fails the filter does not count. -/
theorem length_filter_toList_zero (p : Obj → Bool) (o : Option Obj)
    (h : ∀ x, o = some x → p x = false) : (o.toList.filter p).length = 0 := by
  cases o with
  | none => simp
  | some x => simp [h x rfl]

/-- What the ownership invariant says about the heap: every live object is referenced by
exactly one handle, and at most one compiler, three test runners and one detached runner
are alive. -/
theorem counts_of_inv (s : MainWindow) (h : HandlesOwnLive s) :
    (∀ o ∈ s.live, refCount s o.addr = 1) ∧
      (s.live.filter Obj.isCompiler).length ≤ 1 ∧
      (s.live.filter Obj.isTestRunner).length ≤ 3 ∧
      (s.live.filter Obj.isDetachedRunner).length ≤ 1 := by
  obtain ⟨hperm, hnd, _, hri, hdi⟩ := h
  have hrun : ∀ i r, s.runner i = some r → Obj.isCompiler r.obj = false ∧
      Obj.isDetachedRunner r.obj = false := by
    intro i r hr
    have := hri i r hr
    refine ⟨rfl, ?_⟩
    simp only [Runner.obj, Obj.isDetachedRunner, this]
    have := i.isLt
    simp only [beq_eq_false_iff_ne, ne_eq]
    omega
  have hdet : ∀ r, s.detachedRunner = some r → Obj.isCompiler r.obj = false ∧
      Obj.isTestRunner r.obj = false := by
    intro r hr
    refine ⟨rfl, ?_⟩
    simp [Runner.obj, Obj.isTestRunner, hdi r hr]
  refine ⟨?_, ?_, ?_, ?_⟩
  · intro o ho
    unfold refCount
    rw [← (hperm.map Obj.addr).count_eq]
    exact List.count_eq_one_of_mem hnd (List.mem_map_of_mem _ ho)
  · rw [(hperm.filter _).length_eq]
    simp only [handleObjs, List.filter_append, List.length_append]
    have a := length_filter_toList_le Obj.isCompiler (s.compiler.map Compiler.obj)
    have b0 := length_filter_toList_zero Obj.isCompiler ((s.runner 0).map Runner.obj)
      (by intro x hx; obtain ⟨r, hr, rfl⟩ := Option.map_eq_some'.1 hx; exact (hrun 0 r hr).1)
    have b1 := length_filter_toList_zero Obj.isCompiler ((s.runner 1).map Runner.obj)
      (by intro x hx; obtain ⟨r, hr, rfl⟩ := Option.map_eq_some'.1 hx; exact (hrun 1 r hr).1)
    have b2 := length_filter_toList_zero Obj.isCompiler ((s.runner 2).map Runner.obj)
      (by intro x hx; obtain ⟨r, hr, rfl⟩ := Option.map_eq_some'.1 hx; exact (hrun 2 r hr).1)
    have d := length_filter_toList_zero Obj.isCompiler (s.detachedRunner.map Runner.obj)
      (by intro x hx; obtain ⟨r, hr, rfl⟩ := Option.map_eq_some'.1 hx; exact (hdet r hr).1)
    omega
  · rw [(hperm.filter _).length_eq]
    simp only [handleObjs, List.filter_append, List.length_append]
    have a := length_filter_toList_zero Obj.isTestRunner (s.compiler.map Compiler.obj)
      (by intro x hx; obtain ⟨r, hr, rfl⟩ := Option.map_eq_some'.1 hx; rfl)
    have b0 := length_filter_toList_le Obj.isTestRunner ((s.runner 0).map Runner.obj)
    have b1 := length_filter_toList_le Obj.isTestRunner ((s.runner 1).map Runner.obj)
    have b2 := length_filter_toList_le Obj.isTestRunner ((s.runner 2).map Runner.obj)
    have d := length_filter_toList_zero Obj.isTestRunner (s.detachedRunner.map Runner.obj)
      (by intro x hx; obtain ⟨r, hr, rfl⟩ := Option.map_eq_some'.1 hx; exact (hdet r hr).2)
    omega
  · rw [(hperm.filter _).length_eq]
    simp only [handleObjs, List.filter_append, List.length_append]
    have a := length_filter_toList_zero Obj.isDetachedRunner (s.compiler.map Compiler.obj)
      (by intro x hx; obtain ⟨r, hr, rfl⟩ := Option.map_eq_some'.1 hx; rfl)
    have b0 := length_filter_toList_zero Obj.isDetachedRunner ((s.runner 0).map Runner.obj)
      (by intro x hx; obtain ⟨r, hr, rfl⟩ := Option.map_eq_some'.1 hx; exact (hrun 0 r hr).2)
    have b1 := length_filter_toList_zero Obj.isDetachedRunner ((s.runner 1).map Runner.obj)
      (by intro x hx; obtain ⟨r, hr, rfl⟩ := Option.map_eq_some'.1 hx; exact (hrun 1 r hr).2)
    have b2 := length_filter_toList_zero Obj.isDetachedRunner ((s.runner 2).map Runner.obj)
      (by intro x hx; obtain ⟨r, hr, rfl⟩ := Option.map_eq_some'.1 hx; exact (hrun 2 r hr).2)
    have d := length_filter_toList_le Obj.isDetachedRunner (s.detachedRunner.map Runner.obj)
    omega

/-! ## The pipeline: claims C11 to C16 -/

/-- C11: blank slots are skipped.  With the language `Cpp`, `Java` or `Python`, `run`
returns, and afterwards the runner handle of slot `i` is non-null exactly when `input[i]` is
non-empty after trimming; for every slot with a blank input the runner handle is null and
the verdict is Unknown; and among the entries that `run` added to the logger the warning
`All inputs are empty, nothing to run` occurs exactly when all three inputs are blank. -/
theorem run_skips_blank_slots (env : Env) (s : MainWindow)
    (hlang : s.language = qs "Cpp" ∨ s.language = qs "Java" ∨ s.language = qs "Python") :
    ∃ s', run env s = some s' ∧
      (∀ i, (∃ r, s'.runner i = some r) ↔ (trimmed (s.input i)).isEmpty = false) ∧
      (∀ i, (trimmed (s.input i)).isEmpty = true →
        s'.runner i = none ∧ s'.verdict i = verdictLabel .UNKNOWN) ∧
      ∃ added, s'.log = s.log ++ added ∧
        ((⟨.warn, "Runner", "All inputs are empty, nothing to run"⟩ : LogEntry) ∈ added ↔
          ∀ i, (trimmed (s.input i)).isEmpty = true) := by
  obtain ⟨s', h, _, _, _, _, _, hv, _, hsup, _, _⟩ := run_spec env s
  obtain ⟨hblank, hfull, hlog⟩ := hsup hlang
  refine ⟨s', h, fun i => ⟨fun ⟨r, hr⟩ => ?_, hfull i⟩, fun i hi => ⟨hblank i hi, hv i⟩, hlog⟩
  cases hb : (trimmed (s.input i)).isEmpty with
  | false => rfl
  | true =>
    rw [hblank i hb] at hr
    exact absurd hr (by simp)

/-- C11, witness: in the example window (language `Cpp`, only the first input filled) `run`
creates a runner for the first slot and none for the other two. -/
theorem run_skips_blank_slots_witness :
    ∃ s', run sampleEnv sampleWindow = some s' ∧ (∃ r, s'.runner 0 = some r) ∧
      s'.runner 1 = none ∧ s'.runner 2 = none ∧ s'.verdict 1 = verdictLabel .UNKNOWN := by
  obtain ⟨s', h, hr, hb, _⟩ := run_skips_blank_slots sampleEnv sampleWindow (Or.inl rfl)
  exact ⟨s', h, (hr 0).2 (by decide), (hb 1 (by decide)).1, (hb 2 (by decide)).1,
    (hb 1 (by decide)).2⟩

/-- C12, the code at the failing input: in the example window with the language `Python`,
whose first input is not blank, `compileAndRun` returns with all three runner handles
null, a compiler that was never started and the continuation `Run` still pending, and no
object but that compiler was created; `run` itself, on the same window, does create the
runner of the first slot. -/
theorem compileAndRun_python_launches_nothing :
    (trimmed (pythonWindow.input 0)).isEmpty = false ∧
    (∃ s' c, compileAndRun sampleEnv pythonWindow = some s' ∧
      s'.runner = (fun _ => none) ∧ s'.compiler = some c ∧ c.started = none ∧
      s'.afterCompile = .Run ∧ s'.live = [Obj.compiler 0] ∧ s'.allocated = 1) ∧
    (∃ s'' r, run sampleEnv pythonWindow = some s'' ∧ s''.runner 0 = some r) := by
  refine ⟨by decide, ?_, ?_⟩
  · obtain ⟨s', c, h, hc, _, hr, _, ha, _, _, _, _, hl, hn, _, hs⟩ :=
      compile_spec sampleEnv ({ pythonWindow with afterCompile := .Run }).logClear
    refine ⟨s', c, h, hr, hc, hs (by decide), ha, ?_, hn⟩
    rw [hl]
    rfl
  · obtain ⟨s'', h, _, _, _, _, _, _, _, hsup, _, _⟩ := run_spec sampleEnv pythonWindow
    obtain ⟨r, hr⟩ := (hsup (Or.inr (Or.inr rfl))).2.1 0 (by decide)
    exact ⟨s'', r, h, hr⟩

/-- C13: kill before start, no accumulation.  From a window in which the heap holds exactly
the objects behind the five handles, every finite sequence of pipeline operations and
events (`compileOnly`, `runOnly`, `compileAndRun`, `detachedExecution`, compilation
finished, compilation error, teardown) returns a window in which again the heap is a
rearrangement of the objects behind the handles, every live object is referenced by exactly
one handle, at most one compiler, at most three test runners and at most one detached
runner are alive, and `killProcesses` leaves the heap empty; and in every window whatever,
`killProcesses` leaves all five handles null. -/
theorem pipeline_no_accumulation (env : Env) (ops : List Op) (s0 : MainWindow)
    (h0 : HandlesOwnLive s0) :
    (∃ s, runOps env ops s0 = some s ∧
      s.live.Perm (handleObjs s) ∧
      (∀ o ∈ s.live, refCount s o.addr = 1) ∧
      (s.live.filter Obj.isCompiler).length ≤ 1 ∧
      (s.live.filter Obj.isTestRunner).length ≤ 3 ∧
      (s.live.filter Obj.isDetachedRunner).length ≤ 1 ∧
      (killProcesses s).live = []) ∧
    (∀ t : MainWindow, (killProcesses t).compiler = none ∧
      (∀ i, (killProcesses t).runner i = none) ∧ (killProcesses t).detachedRunner = none) := by
  constructor
  · obtain ⟨s, h, hi⟩ := runOps_inv env ops s0
    have hinv := hi h0
    obtain ⟨c1, c2, c3, c4⟩ := counts_of_inv s hinv
    refine ⟨s, h, hinv.1, c1, c2, c3, c4, ?_⟩
    rw [killProcesses_eq]
    exact liveAfterKill_of_inv s hinv
  · intro t
    rw [killProcesses_eq]
    exact ⟨rfl, fun _ => rfl, rfl⟩

/-- C13, witness: the example window, which has no live object and only null handles, and
the example sequence of operations and events. -/
theorem pipeline_no_accumulation_witness :
    HandlesOwnLive sampleWindow ∧
    ∃ s, runOps sampleEnv sampleOps sampleWindow = some s ∧
      (∀ o ∈ s.live, refCount s o.addr = 1) ∧
      (s.live.filter Obj.isCompiler).length ≤ 1 ∧
      (s.live.filter Obj.isTestRunner).length ≤ 3 ∧
      (s.live.filter Obj.isDetachedRunner).length ≤ 1 := by
  have h0 : HandlesOwnLive sampleWindow := inv_of_empty sampleWindow rfl rfl rfl rfl
  obtain ⟨s, h, _, c1, c2, c3, c4, _⟩ :=
    (pipeline_no_accumulation sampleEnv sampleOps sampleWindow h0).1
  exact ⟨h0, s, h, c1, c2, c3, c4⟩

/-- C14: a failed compilation launches nothing.  From every window `compileAndRun` and
`detachedExecution` return; in the window reached, and still after
`onCompilationErrorOccured` has handled any error text, the three runner handles and the
detached runner handle are null, the output and the verdict of every slot are those from
before the operation, and the only object created is the compiler: neither the operation
nor the error slot enters `run`.  The continuation stays recorded in `afterCompile`, where
only `onCompilationFinished` reads it. -/
theorem compilation_error_launches_nothing (env : Env) (error : QString) (s0 : MainWindow) :
    (∃ s1, compileAndRun env s0 = some s1 ∧ s1.afterCompile = .Run ∧
      s1.runner = (fun _ => none) ∧ s1.detachedRunner = none ∧
      (onCompilationErrorOccured error s1).runner = (fun _ => none) ∧
      (onCompilationErrorOccured error s1).detachedRunner = none ∧
      (onCompilationErrorOccured error s1).output = s0.output ∧
      (onCompilationErrorOccured error s1).verdict = s0.verdict ∧
      (onCompilationErrorOccured error s1).live = Obj.compiler s0.allocated :: liveAfterKill s0 ∧
      (onCompilationErrorOccured error s1).allocated = s0.allocated + 1 ∧
      (onCompilationErrorOccured error s1).afterCompile = .Run) ∧
    (∃ s1, detachedExecution env s0 = some s1 ∧ s1.afterCompile = .RunDetached ∧
      s1.runner = (fun _ => none) ∧ s1.detachedRunner = none ∧
      (onCompilationErrorOccured error s1).runner = (fun _ => none) ∧
      (onCompilationErrorOccured error s1).detachedRunner = none ∧
      (onCompilationErrorOccured error s1).output = s0.output ∧
      (onCompilationErrorOccured error s1).verdict = s0.verdict ∧
      (onCompilationErrorOccured error s1).live = Obj.compiler s0.allocated :: liveAfterKill s0 ∧
      (onCompilationErrorOccured error s1).allocated = s0.allocated + 1 ∧
      (onCompilationErrorOccured error s1).afterCompile = .RunDetached) := by
  have herr : ∀ s : MainWindow,
      (onCompilationErrorOccured error s).runner = s.runner ∧
      (onCompilationErrorOccured error s).detachedRunner = s.detachedRunner ∧
      (onCompilationErrorOccured error s).output = s.output ∧
      (onCompilationErrorOccured error s).verdict = s.verdict ∧
      (onCompilationErrorOccured error s).live = s.live ∧
      (onCompilationErrorOccured error s).allocated = s.allocated ∧
      (onCompilationErrorOccured error s).afterCompile = s.afterCompile := by
    intro s
    unfold onCompilationErrorOccured
    split_ifs <;> exact ⟨rfl, rfl, rfl, rfl, rfl, rfl, rfl⟩
  constructor
  · obtain ⟨s1, c, h, _, _, hr, hd, ha, _, _, ho, hv, hl, hn, _, _⟩ :=
      compile_spec env ({ s0 with afterCompile := .Run }).logClear
    obtain ⟨e1, e2, e3, e4, e5, e6, e7⟩ := herr s1
    refine ⟨s1, h, ha, hr, hd, ?_, ?_, ?_, ?_, ?_, ?_, ?_⟩
    · rw [e1, hr]
    · rw [e2, hd]
    · rw [e3, ho]; rfl
    · rw [e4, hv]; rfl
    · rw [e5, hl]; rfl
    · rw [e6, hn]; rfl
    · rw [e7, ha]; rfl
  · obtain ⟨s1, c, h, _, _, hr, hd, ha, _, _, ho, hv, hl, hn, _, _⟩ :=
      compile_spec env ({ s0 with afterCompile := .RunDetached }).logClear
    obtain ⟨e1, e2, e3, e4, e5, e6, e7⟩ := herr s1
    refine ⟨s1, h, ha, hr, hd, ?_, ?_, ?_, ?_, ?_, ?_, ?_⟩
    · rw [e1, hr]
    · rw [e2, hd]
    · rw [e3, ho]; rfl
    · rw [e4, hv]; rfl
    · rw [e5, hl]; rfl
    · rw [e6, hn]; rfl
    · rw [e7, ha]; rfl

/-- C15: an unsupported language is rejected before any process is spawned.  With a
language other than `Cpp`, `Java` and `Python`: `run` returns with all three runner handles
null, having created no object; `compile` returns with a compiler whose `start` was not
invoked; and `onCompilationFinished` with the continuation `RunDetached` returns with the
detached runner handle null, having created no object. -/
theorem unsupported_language_spawns_nothing (env : Env) (warning : QString) (s : MainWindow)
    (hlang : ¬ (s.language = qs "Cpp" ∨ s.language = qs "Java" ∨ s.language = qs "Python")) :
    (∃ s', run env s = some s' ∧ (∀ i, s'.runner i = none) ∧
      s'.live = liveAfterKill s ∧ s'.allocated = s.allocated) ∧
    (∃ s' c, compile env s = some s' ∧ s'.compiler = some c ∧ c.started = none) ∧
    (s.afterCompile = .RunDetached →
      ∃ s', onCompilationFinished env warning s = some s' ∧ s'.detachedRunner = none ∧
        s'.live = liveAfterKill s ∧ s'.allocated = s.allocated) := by
  refine ⟨?_, ?_, fun hdet => ?_⟩
  · obtain ⟨s', h, _, _, _, _, _, _, _, _, hun, _⟩ := run_spec env s
    obtain ⟨hr, hl, hn⟩ := hun hlang
    exact ⟨s', h, fun i => by rw [hr], hl, hn⟩
  · obtain ⟨s', c, h, hc, _, _, _, _, _, _, _, _, _, _, _, hs⟩ := compile_spec env s
    exact ⟨s', c, h, hc, hs (fun hcj => hlang (hcj.elim Or.inl (fun hj => Or.inr (Or.inl hj))))⟩
  · obtain ⟨s', h, _, hd⟩ := onCompilationFinished_spec env warning s
    obtain ⟨h1, _, _, h4, h5⟩ := hd hdet hlang
    exact ⟨s', h, h1, h4, h5⟩

/-- C15, witness: the example window with the language `Kotlin`. -/
theorem unsupported_language_spawns_nothing_witness :
    (∃ s', run sampleEnv kotlinWindow = some s' ∧ (∀ i, s'.runner i = none)) ∧
    (∃ s' c, compile sampleEnv kotlinWindow = some s' ∧ s'.compiler = some c ∧
      c.started = none) ∧
    (∃ s', onCompilationFinished sampleEnv [] kotlinWindow = some s' ∧
      s'.detachedRunner = none) := by
  obtain ⟨⟨s1, h1, r1, _⟩, hc, hd⟩ :=
    unsupported_language_spawns_nothing sampleEnv [] kotlinWindow (by decide)
  obtain ⟨s3, h3, d3, _⟩ := hd rfl
  exact ⟨⟨s1, h1, r1⟩, hc, ⟨s3, h3, d3⟩⟩

/-- C16: a run clears results but not test data.  In every window, whatever the language
and the inputs, `run` returns, and afterwards the input and the expected output of every
slot are what they were, every actual output is empty and every verdict is Unknown;
`compileOnly` returns and changes no input, expected output, actual output or verdict. -/
theorem run_clears_results_only (env : Env) (s : MainWindow) :
    (∃ s', run env s = some s' ∧ s'.input = s.input ∧ s'.expected = s.expected ∧
      (∀ i, s'.output i = []) ∧ (∀ i, s'.verdict i = verdictLabel .UNKNOWN)) ∧
    (∃ s', compileOnly env s = some s' ∧ s'.input = s.input ∧ s'.expected = s.expected ∧
      s'.output = s.output ∧ s'.verdict = s.verdict) := by
  constructor
  · obtain ⟨s', h, _, _, _, hi, he, hv, ho, _⟩ := run_spec env s
    exact ⟨s', h, hi, he, ho, hv⟩
  · obtain ⟨s', _, h, _, _, _, _, _, hi, he, ho, hv, _⟩ :=
      compile_spec env ({ s with afterCompile := .Nothing }).logClear
    exact ⟨s', h, hi, he, ho, hv⟩

/-! ## The companion payload: claim C17 -/

/-- The loop of `applyCompanion` from index `i` on: it returns; slot `j` with `i ≤ j` gets
test case `j` when there is one and is left alone otherwise; nothing else changes. -/
theorem applyCompanionLoop_spec (testcases : List TestCase) :
    ∀ (k i : Nat) (s : MainWindow), 3 - i = k →
      ∃ s', applyCompanionLoop testcases i s = some s' ∧
        s'.toFileState = s.toFileState ∧ s'.output = s.output ∧ s'.verdict = s.verdict ∧
        s'.submitToCodeforces = s.submitToCodeforces ∧
        (∀ j : Fin 3, s'.input j =
          if i ≤ j.val then
            (match testcases[j.val]? with
              | some t => t.input
              | none => s.input j)
          else s.input j) ∧
        (∀ j : Fin 3, s'.expected j =
          if i ≤ j.val then
            (match testcases[j.val]? with
              | some t => t.output
              | none => s.expected j)
          else s.expected j) := by
  intro k
  induction k with
  | zero =>
    intro i s hk
    have h3 : ¬ (i < testcases.length ∧ i < 3) := by omega
    rw [applyCompanionLoop, dif_neg h3]
    refine ⟨s, rfl, rfl, rfl, rfl, rfl, fun j => ?_, fun j => ?_⟩
    · have := j.isLt
      rw [if_neg (by omega)]
    · have := j.isLt
      rw [if_neg (by omega)]
  | succ k ih =>
    intro i s hk
    by_cases h : i < testcases.length ∧ i < 3
    · rw [applyCompanionLoop, dif_pos h]
      have hget : testcases[i]? = some (testcases.get ⟨i, h.1⟩) := by
        simp [List.getElem?_eq_getElem h.1]
      simp only [hget]
      obtain ⟨s', h1, h2, h3, h4, h5, h6, h7⟩ := ih (i + 1)
        { s with input := Function.update s.input ⟨i, h.2⟩ (testcases.get ⟨i, h.1⟩).input,
                 expected := Function.update s.expected ⟨i, h.2⟩
                   (testcases.get ⟨i, h.1⟩).output } (by omega)
      refine ⟨s', h1, h2, h3, h4, h5, fun j => ?_, fun j => ?_⟩
      · rw [h6 j]
        by_cases hj : i + 1 ≤ j.val
        · rw [if_pos hj, if_pos (by omega)]
          have hne : j ≠ ⟨i, h.2⟩ := by
            intro e
            rw [e] at hj
            simp at hj
          simp only [Function.update_noteq hne]
        · rw [if_neg hj]
          by_cases hji : j.val = i
          · have he : j = ⟨i, h.2⟩ := Fin.ext hji
            rw [if_pos (by omega), he]
            simp only [Function.update_same, hget]
          · have hne : j ≠ ⟨i, h.2⟩ := fun e => hji (by rw [e])
            rw [if_neg (by omega)]
            simp only [Function.update_noteq hne]
      · rw [h7 j]
        by_cases hj : i + 1 ≤ j.val
        · rw [if_pos hj, if_pos (by omega)]
          have hne : j ≠ ⟨i, h.2⟩ := by
            intro e
            rw [e] at hj
            simp at hj
          simp only [Function.update_noteq hne]
        · rw [if_neg hj]
          by_cases hji : j.val = i
          · have he : j = ⟨i, h.2⟩ := Fin.ext hji
            rw [if_pos (by omega), he]
            simp only [Function.update_same, hget]
          · have hne : j ≠ ⟨i, h.2⟩ := fun e => hji (by rw [e])
            rw [if_neg (by omega)]
            simp only [Function.update_noteq hne]
    · rw [applyCompanionLoop, dif_neg h]
      refine ⟨s, rfl, rfl, rfl, rfl, rfl, fun j => ?_, fun j => ?_⟩
      · by_cases hj : i ≤ j.val
        · have := j.isLt
          have hnone : testcases[j.val]? = none := List.getElem?_eq_none (by omega)
          rw [if_pos hj, hnone]
        · rw [if_neg hj]
      · by_cases hj : i ≤ j.val
        · have := j.isLt
          have hnone : testcases[j.val]? = none := List.getElem?_eq_none (by omega)
          rw [if_pos hj, hnone]
        · rw [if_neg hj]

/-- After `clearTests(false)` every input, expected output and actual output is empty and
every verdict is Unknown. -/
theorem clearTests_all (s : MainWindow) :
    (∀ j, (clearTests false s).verdict j = verdictLabel .UNKNOWN) ∧
    (∀ j, (clearTests false s).output j = []) ∧
    (∀ j, (clearTests false s).input j = []) ∧
    (∀ j, (clearTests false s).expected j = []) := by
  refine ⟨fun j => ?_, fun j => ?_, fun j => ?_, fun j => ?_⟩ <;>
    fin_cases j <;> simp [clearTests, clearTestsStep, updateVerdict, Function.update]

/-- The method `setCFToolsUI` returns; it touches the submit button and logs under the head
`CFTools` only. -/
theorem setCFToolsUI_spec (env : Env) (s : MainWindow) :
    ∃ s', setCFToolsUI env s = some s' ∧ s'.input = s.input ∧ s'.expected = s.expected ∧
      s'.output = s.output ∧ s'.verdict = s.verdict ∧
      ∃ added : List LogEntry, s'.log = s.log ++ added ∧ ∀ x ∈ added, x.head = "CFTools" := by
  unfold setCFToolsUI
  cases hb : s.submitToCodeforces with
  | none =>
    simp only [if_true]
    by_cases hok : env.cftoolsCheck s.clock = true
    · simp only [hok, Bool.not_true, Bool.false_eq_true, if_false]
      exact ⟨_, rfl, rfl, rfl, rfl, rfl, [], by simp [FileState.step], by simp⟩
    · simp only [Bool.not_eq_true] at hok
      simp only [hok, Bool.not_false, if_true]
      exact ⟨_, rfl, rfl, rfl, rfl, rfl, [_], rfl, by simp⟩
  | some b =>
    simp only [reduceCtorEq, if_false]
    by_cases hok : env.cftoolsCheck s.clock = true
    · simp only [hok, Bool.not_true, Bool.false_eq_true, if_false]
      exact ⟨_, rfl, rfl, rfl, rfl, rfl, [], by simp [FileState.step], by simp⟩
    · simp only [Bool.not_eq_true] at hok
      simp only [hok, Bool.not_false, if_true, hb]
      exact ⟨_, rfl, rfl, rfl, rfl, rfl, [_], rfl, by simp⟩

/-- The method `isTextChanged` leaves the logger alone. -/
theorem isTextChanged_log (env : Env) (s : FileState) :
    (isTextChanged env s).2.log = s.log := by
  unfold isTextChanged
  simp only []
  split_ifs <;> rfl

/-- The method `applyCompanion` in full: it returns; slot `j` holds test case `j` when there
is one and is empty otherwise; outputs are empty and verdicts Unknown; the logger gains
the warning about more than three test cases exactly when there are more than three, and
otherwise only entries under the head `CFTools`. -/
theorem applyCompanion_spec (env : Env) (data : CompanionData) (s : MainWindow) :
    ∃ s', applyCompanion env data s = some s' ∧
      (∀ j : Fin 3, s'.input j =
        match data.testcases[j.val]? with
        | some t => t.input
        | none => []) ∧
      (∀ j : Fin 3, s'.expected j =
        match data.testcases[j.val]? with
        | some t => t.output
        | none => []) ∧
      (∀ j, s'.output j = []) ∧ (∀ j, s'.verdict j = verdictLabel .UNKNOWN) ∧
      ∃ added : List LogEntry, s'.log = s.log ++ added ∧
        ((⟨.warn, "CP Editor",
            "More than 3 testcase were produced. Only First 3 will be used"⟩ : LogEntry) ∈
          added ↔ 3 < data.testcases.length) := by
  -- the window after the first branch and `clearTests`
  obtain ⟨c, hc, cv, co, ci, ce, cl⟩ : ∃ c : MainWindow,
      clearTests clearTestsDefault (if isUntitled s.toFileState then
        { s with toFileState := (isTextChanged env s.toFileState).2 } else s) = c ∧
      (∀ j, c.verdict j = verdictLabel .UNKNOWN) ∧ (∀ j, c.output j = []) ∧
      (∀ j, c.input j = []) ∧ (∀ j, c.expected j = []) ∧ c.log = s.log := by
    refine ⟨_, rfl, ?_⟩
    obtain ⟨h1, h2, h3, h4⟩ := clearTests_all (if isUntitled s.toFileState then
        { s with toFileState := (isTextChanged env s.toFileState).2 } else s)
    refine ⟨h1, h2, h3, h4, ?_⟩
    show (clearTests false _).toFileState.log = _
    rw [(clearTests_frame false _).1]
    split_ifs
    · exact isTextChanged_log env s.toFileState
    · rfl
  -- the window after the warning
  obtain ⟨w, hw, wv, wo, wi, we, wl⟩ : ∃ w : MainWindow,
      (if data.testcases.length > 3 then
        c.logMessage .warn "CP Editor"
          "More than 3 testcase were produced. Only First 3 will be used"
      else c) = w ∧
      (∀ j, w.verdict j = verdictLabel .UNKNOWN) ∧ (∀ j, w.output j = []) ∧
      (∀ j, w.input j = []) ∧ (∀ j, w.expected j = []) ∧
      ∃ added : List LogEntry, w.log = s.log ++ added ∧ (∀ x ∈ added, x.head = "CP Editor") ∧
        ((⟨.warn, "CP Editor",
            "More than 3 testcase were produced. Only First 3 will be used"⟩ : LogEntry) ∈
          added ↔ 3 < data.testcases.length) := by
    refine ⟨_, rfl, ?_⟩
    by_cases h : data.testcases.length > 3
    · rw [if_pos h]
      refine ⟨cv, co, ci, ce,
        [⟨.warn, "CP Editor", "More than 3 testcase were produced. Only First 3 will be used"⟩],
        ?_, ?_, ?_⟩
      · show c.log ++ _ = _
        rw [cl]
      · simp
      · simp only [List.mem_singleton, true_iff]
        exact h
    · rw [if_neg h]
      exact ⟨cv, co, ci, ce, [], by simp [cl], by simp, by simp; omega⟩
  obtain ⟨s1, l1, l2, l3, l4, _, l6, l7⟩ := applyCompanionLoop_spec data.testcases 3 0 w rfl
  obtain ⟨added, ha1, ha2, ha3⟩ := wl
  have hin : ∀ j : Fin 3, s1.input j =
      match data.testcases[j.val]? with
      | some t => t.input
      | none => [] := by
    intro j
    rw [l6 j, if_pos (Nat.zero_le _), wi j]
  have hex : ∀ j : Fin 3, s1.expected j =
      match data.testcases[j.val]? with
      | some t => t.output
      | none => [] := by
    intro j
    rw [l7 j, if_pos (Nat.zero_le _), we j]
  have hlog1 : s1.log = s.log ++ added := by
    show s1.toFileState.log = _
    rw [l2]
    exact ha1
  unfold applyCompanion
  simp only [hc, hw, l1]
  by_cases hcf : contains data.url (qs "codeforces.com") = true
  · rw [if_pos hcf]
    obtain ⟨s2, g1, g2, g3, g4, g5, added2, g6, g7⟩ :=
      setCFToolsUI_spec env { s1 with problemURL := data.url }
    refine ⟨s2, g1, fun j => ?_, fun j => ?_, fun j => ?_, fun j => ?_,
      added ++ added2, ?_, ?_⟩
    · rw [g2]; exact hin j
    · rw [g3]; exact hex j
    · rw [g4]; show s1.output j = _; rw [l3]; exact wo j
    · rw [g5]; show s1.verdict j = _; rw [l4]; exact wv j
    · rw [g6]
      show s1.log ++ added2 = _
      rw [hlog1, List.append_assoc]
    · rw [List.mem_append, ← ha3]
      constructor
      · rintro (h | h)
        · exact h
        · exact absurd (g7 _ h) (by decide)
      · exact Or.inl
  · rw [if_neg hcf]
    refine ⟨_, rfl, hin, hex, fun j => ?_, fun j => ?_, added, hlog1, ha3⟩
    · show s1.output j = _; rw [l3]; exact wo j
    · show s1.verdict j = _; rw [l4]; exact wv j

/-- C17: applying a companion payload.  `applyCompanion` returns; afterwards slot `i` holds
the input and the output of test case `i` whenever the payload has a test case `i`, so for
every `i` below the minimum of the number of test cases and 3; every slot from that
minimum on has empty input and empty expected output; every actual output is empty and
every verdict is Unknown; the slots depend on the first three test cases only, a payload
with the same first three fills them alike; and among the entries added to the logger the
warning about more than three test cases occurs exactly when there are more than three. -/
theorem applyCompanion_first_three (env : Env) (data : CompanionData) (s : MainWindow) :
    ∃ s', applyCompanion env data s = some s' ∧
      (∀ (i : Fin 3) (t : TestCase), data.testcases[i.val]? = some t →
        s'.input i = t.input ∧ s'.expected i = t.output) ∧
      (∀ i : Fin 3, data.testcases.length ≤ i.val → s'.input i = [] ∧ s'.expected i = []) ∧
      (∀ i, s'.output i = [] ∧ s'.verdict i = verdictLabel .UNKNOWN) ∧
      (∀ data2 : CompanionData, data2.testcases.take 3 = data.testcases.take 3 →
        ∃ s'', applyCompanion env data2 s = some s'' ∧ s''.input = s'.input ∧
          s''.expected = s'.expected ∧ s''.output = s'.output ∧ s''.verdict = s'.verdict) ∧
      ∃ added : List LogEntry, s'.log = s.log ++ added ∧
        ((⟨.warn, "CP Editor",
            "More than 3 testcase were produced. Only First 3 will be used"⟩ : LogEntry) ∈
          added ↔ 3 < data.testcases.length) := by
  obtain ⟨s', h, hi, he, ho, hv, hlog⟩ := applyCompanion_spec env data s
  refine ⟨s', h, fun i t ht => ?_, fun i hn => ?_, fun i => ⟨ho i, hv i⟩, fun data2 h2 => ?_,
    hlog⟩
  · rw [hi i, he i, ht]
    exact ⟨rfl, rfl⟩
  · have hnone : data.testcases[i.val]? = none := List.getElem?_eq_none hn
    rw [hi i, he i, hnone]
    exact ⟨rfl, rfl⟩
  · obtain ⟨s'', g, gi, ge, go, gv, _⟩ := applyCompanion_spec env data2 s
    have hsame : ∀ j : Fin 3, data2.testcases[j.val]? = data.testcases[j.val]? := by
      intro j
      have e1 : (data2.testcases.take 3)[j.val]? = data2.testcases[j.val]? :=
        List.getElem?_take_of_lt j.isLt
      have e2 : (data.testcases.take 3)[j.val]? = data.testcases[j.val]? :=
        List.getElem?_take_of_lt j.isLt
      rw [← e1, ← e2, h2]
    refine ⟨s'', g, ?_, ?_, ?_, ?_⟩
    · funext j; rw [gi j, hi j, hsame j]
    · funext j; rw [ge j, he j, hsame j]
    · funext j; rw [go j, ho j]
    · funext j; rw [gv j, hv j]

/-- C17, witness: the example payload of four test cases applied to the example window:
the three slots hold the first three test cases and the warning is logged. -/
theorem applyCompanion_first_three_witness :
    ∃ s', applyCompanion sampleEnv sampleCompanion sampleWindow = some s' ∧
      s'.input 0 = qs "8" ∧ s'.expected 0 = qs "YES" ∧
      s'.input 2 = qs "2" ∧ s'.expected 2 = qs "NO" ∧
      ∃ added : List LogEntry, s'.log = sampleWindow.log ++ added ∧
        (⟨.warn, "CP Editor",
            "More than 3 testcase were produced. Only First 3 will be used"⟩ : LogEntry) ∈
          added := by
  obtain ⟨s', h, h1, _, _, _, added, hl, hw⟩ :=
    applyCompanion_first_three sampleEnv sampleCompanion sampleWindow
  exact ⟨s', h, (h1 0 ⟨qs "8", qs "YES"⟩ rfl).1, (h1 0 ⟨qs "8", qs "YES"⟩ rfl).2,
    (h1 2 ⟨qs "2", qs "NO"⟩ rfl).1, (h1 2 ⟨qs "2", qs "NO"⟩ rfl).2, added, hl,
    hw.2 (by decide)⟩

/-! ## The temporary file: claim C18 -/

/-- C18: `tmpPath` and `saveTemp` terminate in every state, with at most two nested calls.
Both return a result in every state.  `tmpPath` is its body around the body of `saveTemp`
around the body of `tmpPath` around a call that yields nothing, and `saveTemp` is its body
around the body of `tmpPath` around such a call: no further call is made.  The reasons:
when `saveFile` fails and the new temporary directory is invalid, the body of `saveTemp`
returns false whatever its call of `tmpPath` would do; and in a state with a valid
temporary directory the body of `tmpPath` returns the same result whatever its call of
`saveTemp` would do.  `tmpPath` returns the file path of a titled file; for an untitled
file it returns the empty text or the path of `sol.cpp`, `sol.java` or `sol.py`, according
to the language, in the valid temporary directory of the window. -/
theorem tmpPath_saveTemp_depth (env : Env) (input expected : Fin 3 → QString)
    (head : String) (s : FileState) :
    (∃ p s', tmpPath env input expected s = some (p, s') ∧
      (isUntitled s = false → p = s.filePath) ∧
      (isUntitled s = true → p = [] ∨
        ∃ d, s'.tmpDir = some d ∧ d.valid = true ∧
          ((s.language = qs "Cpp" ∧ p = d.path ++ qs "/" ++ qs "sol.cpp") ∨
           (s.language = qs "Java" ∧ p = d.path ++ qs "/" ++ qs "sol.java") ∨
           (s.language = qs "Python" ∧ p = d.path ++ qs "/" ++ qs "sol.py")))) ∧
    (∃ b s', saveTemp env input expected head s = some (b, s')) ∧
    tmpPath env input expected s =
      tmpPathBody (saveTempBody (tmpPathBody noCall) env input expected) s ∧
    saveTemp env input expected head s =
      saveTempBody (tmpPathBody noCall) env input expected head s ∧
    ((saveFile env input expected .IgnoreUntitled head s).1 = false →
      (env.newTmpDir (saveFile env input expected .IgnoreUntitled head s).2.clock).valid =
        false →
      ∃ s', ∀ call, saveTempBody call env input expected head s = some (false, s')) ∧
    (∀ t : FileState, hasValidTmpDir t = true →
      ∃ r, ∀ call, tmpPathBody call t = some r) := by
  refine ⟨?_, ?_, tmpPath_eq_depth_two env input expected s,
    saveTemp_eq_depth_one env input expected head s noCall, fun hf hv => ?_, fun t ht => ?_⟩
  · obtain ⟨p, s', h, _, ht, hu⟩ := tmpPath_spec env input expected s
    refine ⟨p, s', h, fun h0 => (ht h0).1, fun h1 => ?_⟩
    rcases hu h1 with h0 | ⟨d, hd, hdv, hl⟩
    · exact Or.inl h0
    · refine Or.inr ⟨d, hd, hdv, ?_⟩
      have hpath : ∀ name : QString, name.isEmpty = false →
          d.filePath name = d.path ++ qs "/" ++ name := by
        intro name hn
        simp [TmpDir.filePath, hdv, hn]
      rcases hl with ⟨a, b⟩ | ⟨a, b⟩ | ⟨a, b⟩
      · exact Or.inl ⟨a, by rw [b]; exact hpath _ rfl⟩
      · exact Or.inr (Or.inl ⟨a, by rw [b]; exact hpath _ rfl⟩)
      · exact Or.inr (Or.inr ⟨a, by rw [b]; exact hpath _ rfl⟩)
  · obtain ⟨b, s', h, _⟩ := saveTemp_spec [head, "Formatter", "Tests", "Temp Saver"] env
      input expected head s (by simp) (by simp) (by simp) (by simp)
    exact ⟨b, s', h⟩
  · refine ⟨({ (saveFile env input expected .IgnoreUntitled head s).2.step with
        tmpDir := some (env.newTmpDir
          (saveFile env input expected .IgnoreUntitled head s).2.clock) } : FileState).logMessage
      .error head "Failed to create temporary directory", fun call => ?_⟩
    unfold saveTempBody
    have hv' : hasValidTmpDir
        { (saveFile env input expected .IgnoreUntitled head s).2.step with
          tmpDir := some (env.newTmpDir
            (saveFile env input expected .IgnoreUntitled head s).2.clock) } = false := by
      simp only [hasValidTmpDir]
      exact hv
    simp only [hf, Bool.not_false, if_true, hv']
  · obtain ⟨p, s', h, _⟩ := tmpPathBody_of_valid t ht
    exact ⟨(p, s'), h⟩

/-- C18, witness: in the example window, untitled and with the language `Cpp`, in the
example world, where every temporary directory is valid and every write succeeds,
`tmpPath` returns the path of `sol.cpp` in the new temporary directory. -/
theorem tmpPath_saveTemp_depth_witness :
    ∃ s', tmpPath sampleEnv sampleWindow.input sampleWindow.expected sampleWindow.toFileState =
      some (qs "/tmp/cpeditor/sol.cpp", s') := by
  obtain ⟨_, _, hd, _⟩ := tmpPath_saveTemp_depth sampleEnv sampleWindow.input
    sampleWindow.expected "Temp Saver" sampleWindow.toFileState
  rw [hd]
  exact ⟨_, rfl⟩

end CPEditor
